import Mathlib

/-!
A shallow embedding of the `puffs` front-end type checker
(`lang/ast/ast.go` and `lang/check/type.go`) and proofs about it.

The AST is the uniform node record of `ast.go`: a kind tag, flag bits,
two interned token IDs, three optional child slots and two child lists.
Each node additionally carries a numeric identity `nid` (standing for the
node's address in the Go original) so that the checker's in-place
annotations (`m_type`, `const_value`, the `TypeChecked` flag, the
`has_break`/`has_continue` bits and the jump-target back-reference) can be
modelled as finite maps keyed by `nid` inside an explicit checker state.

The checker functions of `type.go` are translated one-to-one, threading
the state and returning a Go-style optional error.  Recursion is indexed
by an explicit fuel argument (Go recursion is bounded by the finite AST;
fuel exhaustion is reported by a dedicated error that the real control
flow never produces when the fuel dominates the tree size).
-/

/-- Modelled from the spec: the token package is not part of the two core
source files.  An interned token ID with its canonical key, its operator
category flags, its classification predicates and its source lexeme
(`id.key()`, `id.flags()`, `id.is_ident()`, `id.is_num_literal()`,
`id.is_num_type()`, `id.string(tm)` of spec section 6). -/
structure TokID where
  key : Nat
  flags : Nat
  isIdentTok : Bool
  isNumLitTok : Bool
  isNumTypeTok : Bool
  lexeme : String
deriving DecidableEq, Repr

/-- The zero token ID (Go `t.ID(0)`): an absent token. -/
def TokID.zero : TokID := ⟨0, 0, false, false, false, ""⟩

/-! Canonical keys for the built-in tokens the checker dispatches on
(spec section 6 lists this minimum required set).  The concrete numbers
are arbitrary but distinct. -/

def KeyOpenParen : Nat := 1
def KeyOpenBracket : Nat := 2
def KeyColon : Nat := 3
def KeyDot : Nat := 4
def KeyPtr : Nat := 5
def KeyEq : Nat := 6
def KeyShiftLEq : Nat := 7
def KeyShiftREq : Nat := 8
def KeyBreak : Nat := 9
def KeyContinue : Nat := 10
def KeyFalse : Nat := 11
def KeyTrue : Nat := 12
def KeyUnderscore : Nat := 13
def KeyThis : Nat := 14
def KeyBool : Nat := 15
def KeyBuf1 : Nat := 16
def KeyIn : Nat := 17
def KeyOut : Nat := 18
def KeyReadU8 : Nat := 19
def KeySrc : Nat := 20
def KeyLowBits : Nat := 21
def KeyIdealNumber : Nat := 22
def KeyU8 : Nat := 23
def KeyXUnaryPlus : Nat := 30
def KeyXUnaryMinus : Nat := 31
def KeyXUnaryNot : Nat := 32
def KeyXBinaryPlus : Nat := 33
def KeyXBinaryMinus : Nat := 34
def KeyXBinaryStar : Nat := 35
def KeyXBinarySlash : Nat := 36
def KeyXBinaryShiftL : Nat := 37
def KeyXBinaryShiftR : Nat := 38
def KeyXBinaryAmp : Nat := 39
def KeyXBinaryAmpHat : Nat := 40
def KeyXBinaryPipe : Nat := 41
def KeyXBinaryHat : Nat := 42
def KeyXBinaryNotEq : Nat := 43
def KeyXBinaryLessThan : Nat := 44
def KeyXBinaryLessEq : Nat := 45
def KeyXBinaryEqEq : Nat := 46
def KeyXBinaryGreaterEq : Nat := 47
def KeyXBinaryGreaterThan : Nat := 48
def KeyXBinaryAnd : Nat := 49
def KeyXBinaryOr : Nat := 50
def KeyXBinaryAs : Nat := 51

/-! Flag bits.  The first four are the `ast.Flags` values of `ast.go`;
the last three model the token package's operator-category flag bits. -/

def FlagsImpure : Nat := 1
def FlagsSuspendible : Nat := 2
def FlagsPublic : Nat := 4
def FlagsTypeChecked : Nat := 8
def FlagsUnaryOp : Nat := 16
def FlagsBinaryOp : Nat := 32
def FlagsAssociativeOp : Nat := 64

/-- `ast.Kind`: what kind of node it is (the closed set of `ast.go`). -/
inductive Kind where
  | KInvalid
  | KArg
  | KAssert
  | KAssign
  | KExpr
  | KField
  | KFile
  | KFunc
  | KIf
  | KJump
  | KReturn
  | KStruct
  | KTypeExpr
  | KUse
  | KVar
  | KWhile
deriving DecidableEq, Repr

/-- The uniform AST node of `ast.go`: kind, flags, the two interned IDs
`id0`/`id1`, the three child slots `lhs`/`mhs`/`rhs` and the two child
lists `list0`/`list1`, plus the node identity `nid` (its address). -/
inductive Node where
  | mk (nid : Nat) (kind : Kind) (flags : Nat) (id0 id1 : TokID)
      (lhs mhs rhs : Option Node) (list0 list1 : List Node)
deriving Repr

def Node.nid : Node → Nat
  | .mk i _ _ _ _ _ _ _ _ _ => i

def Node.kind : Node → Kind
  | .mk _ k _ _ _ _ _ _ _ _ => k

def Node.flags : Node → Nat
  | .mk _ _ f _ _ _ _ _ _ _ => f

def Node.id0 : Node → TokID
  | .mk _ _ _ a _ _ _ _ _ _ => a

def Node.id1 : Node → TokID
  | .mk _ _ _ _ b _ _ _ _ _ => b

def Node.lhs : Node → Option Node
  | .mk _ _ _ _ _ l _ _ _ _ => l

def Node.mhs : Node → Option Node
  | .mk _ _ _ _ _ _ m _ _ _ => m

def Node.rhs : Node → Option Node
  | .mk _ _ _ _ _ _ _ r _ _ => r

def Node.list0 : Node → List Node
  | .mk _ _ _ _ _ _ _ _ a _ => a

def Node.list1 : Node → List Node
  | .mk _ _ _ _ _ _ _ _ _ b => b

/-- `Expr.Impure` of `ast.go`: the `FlagsImpure` bit (a `f!(x)` call). -/
def Node.Impure (n : Node) : Bool := n.flags &&& FlagsImpure != 0

/-- `Expr.Suspendible` of `ast.go`: the `FlagsSuspendible` bit (a `f?(x)` call). -/
def Node.Suspendible (n : Node) : Bool := n.flags &&& FlagsSuspendible != 0

/-- `TypeExpr.IsNumType` of `ast.go`: no package-or-decorator and a
numeric-primitive type name. -/
def Node.IsNumType (n : Node) : Bool := n.id0.key == 0 && n.id1.isNumTypeTok

mutual

/-- Modelled from the spec: `TypeExpr.Eq`, structural equality of type
expressions (the checker's `m_type == Bool` style tests), defined outside
the two core source files.  Compares the interned IDs and all children,
ignoring the node identity and the flag bits. -/
def teq : Node → Node → Bool
  | .mk _ _ _ a1 b1 l1 m1 r1 s1 t1, .mk _ _ _ a2 b2 l2 m2 r2 s2 t2 =>
    a1 == a2 && b1 == b2 && teqOpt l1 l2 && teqOpt m1 m2 && teqOpt r1 r2 &&
      teqList s1 s2 && teqList t1 t2

def teqOpt : Option Node → Option Node → Bool
  | none, none => true
  | some x, some y => teq x y
  | _, _ => false

def teqList : List Node → List Node → Bool
  | [], [] => true
  | x :: xs, y :: ys => teq x y && teqList xs ys
  | _, _ => false

end

mutual

/-- Modelled from the spec: `TypeExpr.EqIgnoringRefinements`, defined
outside the two core source files.  Equality of type expressions that
ignores the refinement bounds (the `lhs`/`mhs` slots) of named types;
an array type's length (its `lhs`) still counts. -/
def eqIgnoringRefinements : Node → Node → Bool
  | .mk _ _ _ a1 b1 l1 _ r1 _ _, .mk _ _ _ a2 b2 l2 _ r2 _ _ =>
    a1 == a2 && b1 == b2 &&
      (if a1.key == KeyOpenBracket then teqOpt l1 l2 else true) &&
      eqIgnoringRefinementsOpt r1 r2

def eqIgnoringRefinementsOpt : Option Node → Option Node → Bool
  | none, none => true
  | some x, some y => eqIgnoringRefinements x y
  | _, _ => false

end

/-- The canonical `bool` type expression (`TypeExprBool` of the check
package). -/
def TypeExprBool : Node :=
  .mk 0 .KTypeExpr 0 TokID.zero ⟨KeyBool, 0, false, false, false, "bool"⟩
    none none none [] []

/-- The canonical ideal-number pseudo-type (`TypeExprIdeal` of the check
package), the implicit type of untyped numeric literals. -/
def TypeExprIdeal : Node :=
  .mk 0 .KTypeExpr 0 TokID.zero ⟨KeyIdealNumber, 0, false, false, false, "ideal"⟩
    none none none [] []

/-- The canonical `u8` type expression (`TypeExprU8` of the check
package). -/
def TypeExprU8 : Node :=
  .mk 0 .KTypeExpr 0 TokID.zero ⟨KeyU8, 0, false, false, true, "u8"⟩
    none none none [] []

/-- Modelled from the spec: the check package's `numeric` helper — a type
is numeric when it is the ideal pseudo-type or a sized numeric primitive. -/
def numeric (t : Node) : Bool := teq t TypeExprIdeal || t.IsNumType

/-- The check package's `btoi`: booleans fold to 1 / 0. -/
def btoi (b : Bool) : Int := if b then 1 else 0

/-- `0xFFFF`, the check package's `ffff` shift-range limit. -/
def ffff : Int := 65535

/-- `comparisonOps` of `type.go`: the binary operators whose result type
is `bool`. -/
def comparisonOps (k : Nat) : Bool :=
  k == KeyXBinaryNotEq || k == KeyXBinaryLessThan || k == KeyXBinaryLessEq ||
    k == KeyXBinaryEqEq || k == KeyXBinaryGreaterEq || k == KeyXBinaryGreaterThan

/-- `big.Int.Lsh`: left shift, multiplication by a power of two. -/
def bigLsh (l : Int) (s : Nat) : Int := l * (2 : Int) ^ s

/-- `big.Int.Rsh`: arithmetic right shift on the infinite two's-complement
representation, i.e. floor division by a power of two. -/
def bigRsh (l : Int) (s : Nat) : Int := Int.fdiv l ((2 : Int) ^ s)

/-- `big.Int.Div`: Euclidean division (the remainder is non-negative). -/
def bigDiv (l r : Int) : Int := Int.ediv l r

/-- `big.Int.AndNot`: `l &^ r` on the infinite two's-complement
representation. -/
def bigAndNot (l r : Int) : Int := Int.land l (Int.lnot r)

/-- The value of one digit character, if it is valid for the base. -/
def digitVal (base : Nat) (c : Char) : Option Nat :=
  let v : Option Nat :=
    if '0' ≤ c && c ≤ '9' then some (c.toNat - '0'.toNat)
    else if 'a' ≤ c && c ≤ 'f' then some (10 + c.toNat - 'a'.toNat)
    else if 'A' ≤ c && c ≤ 'F' then some (10 + c.toNat - 'A'.toNat)
    else none
  match v with
  | some d => if d < base then some d else none
  | none => none

/-- Parse a non-empty digit run in the given base; `none` on an empty run
or an out-of-range character. -/
def parseDigits (base : Nat) : List Char → Option Nat
  | [] => none
  | cs => go cs 0
where
  go : List Char → Nat → Option Nat
    | [], acc => some acc
    | c :: cs, acc =>
      match digitVal base c with
      | some d => go cs (base * acc + d)
      | none => none

/-- Modelled from the spec: `big.Int.SetString(s, 0)` of the Go standard
library, as `type.go` uses it on numeric literals — an optional sign, then
a base prefix (`0x`/`0X` hex, `0b`/`0B` binary, a leading `0` octal,
otherwise decimal), then digits of that base filling the whole string;
`none` when the string is not a valid literal. -/
def setStringBase0 (s : String) : Option Int :=
  let cs := s.toList
  let signAndRest : Bool × List Char :=
    match cs with
    | '-' :: t => (true, t)
    | '+' :: t => (false, t)
    | _ => (false, cs)
  let mag : Option Nat :=
    match signAndRest.2 with
    | '0' :: 'x' :: t => parseDigits 16 t
    | '0' :: 'X' :: t => parseDigits 16 t
    | '0' :: 'b' :: t => parseDigits 2 t
    | '0' :: 'B' :: t => parseDigits 2 t
    | '0' :: [] => some 0
    | '0' :: t => parseDigits 8 t
    | t => parseDigits 10 t
  match mag with
  | none => none
  | some m => some (if signAndRest.1 then -(m : Int) else (m : Int))

example : setStringBase0 "42" = some 42 := rfl
example : setStringBase0 "0x1F" = some 31 := rfl
example : setStringBase0 "0b101" = some 5 := rfl
example : setStringBase0 "017" = some 15 := rfl
example : setStringBase0 "0" = some 0 := rfl
example : setStringBase0 "-0x10" = some (-16) := rfl
example : setStringBase0 "0x" = none := rfl
example : setStringBase0 "09" = none := rfl
example : setStringBase0 "" = none := rfl
example : setStringBase0 "12a" = none := rfl

/-- The checker's error taxonomy (spec section 7), one constructor per
distinct error return of `type.go`, plus `outOfFuel` for the fuel index of
the embedding (never produced when the fuel dominates the tree size). -/
inductive Err where
  | duplicateVar
  | notBool
  | noJumpTarget
  | unrecognizedStmtKind
  | uncheckedTypeExpression
  | invalidNumLit
  | unknownIdent
  | unrecognizedExprKey
  | notAssignable
  | assigneeNotNumeric
  | shiftOperandNotNumeric
  | incompatibleAssign
  | tooDeep
  | unsupportedPackageOrDecorator
  | noStructType
  | noSuchField
  | unaryNotNumeric
  | unaryNotBool
  | binaryNotNumeric
  | binaryNotBool
  | cannotConvert
  | incompatibleBinary
  | cannotShiftIdealByNonIdeal
  | divByZero
  | shiftOutOfRange
  | typeTooDeep
  | boundNotConstant
  | notAType
  | arrayLengthNotConstant
  | unrecognizedTypeExprNode
  | internalNil
  | outOfFuel
deriving DecidableEq, Repr

/-- The checker state: the per-node annotations that `type.go` writes in
place (keyed by node identity), the per-function symbol state of the
`checker` struct (`f.LocalVars`, `jumpTargets`), and the cross-function
context (`f.Func.In()`, `f.Func.Out()`, `c.structs`). -/
structure CState where
  typeChecked : List Nat := []
  constValue : List (Nat × Int) := []
  mType : List (Nat × Node) := []
  hasBreak : List Nat := []
  hasContinue : List Nat := []
  jumpTarg : List (Nat × Nat) := []
  localVars : List (TokID × Node) := []
  jumpTargets : List Node := []
  funcIn : Option Node := none
  funcOut : Option Node := none
  structs : List (Nat × Node) := []

/-- `Node.SetTypeChecked`. -/
def setTypeChecked (q : CState) (i : Nat) : CState :=
  { q with typeChecked := i :: q.typeChecked }

/-- `Node.TypeChecked`. -/
def lookupTC (q : CState) (i : Nat) : Bool := q.typeChecked.contains i

/-- `Expr.SetConstValue`. -/
def setCV (q : CState) (i : Nat) (z : Int) : CState :=
  { q with constValue := (i, z) :: q.constValue }

/-- `Expr.ConstValue`. -/
def lookupCV (q : CState) (i : Nat) : Option Int := q.constValue.lookup i

/-- `Expr.SetMType`. -/
def setMT (q : CState) (i : Nat) (t : Node) : CState :=
  { q with mType := (i, t) :: q.mType }

/-- `Expr.MType`. -/
def lookupMT (q : CState) (i : Nat) : Option Node := q.mType.lookup i

/-- `While.SetHasBreak`. -/
def setHasBreak (q : CState) (i : Nat) : CState :=
  { q with hasBreak := i :: q.hasBreak }

/-- `While.SetHasContinue`. -/
def setHasContinue (q : CState) (i : Nat) : CState :=
  { q with hasContinue := i :: q.hasContinue }

/-- `Jump.SetJumpTarget`: record the back-reference from a jump node to
its target while node. -/
def setJumpTarg (q : CState) (i w : Nat) : CState :=
  { q with jumpTarg := (i, w) :: q.jumpTarg }

/-- The recorded jump target of a jump node. -/
def lookupJT (q : CState) (i : Nat) : Option Nat := q.jumpTarg.lookup i

/-- `q.f.LocalVars[name]`. -/
def lookupLV (q : CState) (name : TokID) : Option Node := q.localVars.lookup name

/-- `q.f.LocalVars[name] = xtype`: register a local variable. -/
def setLV (q : CState) (name : TokID) (t : Node) : CState :=
  { q with localVars := q.localVars ++ [(name, t)] }

/-- `MaxExprDepth` of `ast.go`: the expression recursion-depth limit. -/
def MaxExprDepth : Nat := 255

/-- `MaxTypeExprDepth` of `ast.go`: the type-expression depth limit. -/
def MaxTypeExprDepth : Nat := 63

/-- `isInSrcReadU8` of `type.go`: does this expression match the
hard-coded callee shape `in.src.read_u8`? -/
def isInSrcReadU8 (n : Node) : Bool :=
  if n.id0.key == KeyDot && n.id1.key == KeyReadU8 then
    match n.lhs with
    | some m =>
      if m.id0.key == KeyDot && m.id1.key == KeySrc then
        match m.lhs with
        | some p => p.id0.key == 0 && p.id1.key == KeyIn
        | none => false
      else false
    | none => false
  else false

/-- `isLowBits` of `type.go`: does this expression match the hard-coded
callee shape `foo.low_bits`? -/
def isLowBits (n : Node) : Bool :=
  n.id0.key == KeyDot && n.id1.key == KeyLowBits

/-- The field-search loop of `tcheckDot`: the first field of the struct
whose name equals the selector. -/
def findField : List Node → TokID → Option Node
  | [], _ => none
  | f :: t, name => if f.id1 == name then some f else findField t name

/-- The labelled-jump search loop of the `KJump` case: walk `jumpTargets`
from the innermost (the end of the stack) outwards for a while statement
whose label matches. -/
def searchJumpTargets (l : List Node) (id : TokID) : Option Node :=
  match l with
  | [] => none
  | w :: t =>
    match searchJumpTargets t id with
    | some r => some r
    | none => if w.id1 == id then some w else none

/-- `setConstValueBinaryOp` of `type.go`: constant folding for a binary
expression whose operands both carry constant values `l` and `r`. -/
def setConstValueBinaryOp (q : CState) (n : Node) (l r : Int) : CState × Option Err :=
  if n.id0.key == KeyXBinaryPlus then (setCV q n.nid (l + r), none)
  else if n.id0.key == KeyXBinaryMinus then (setCV q n.nid (l - r), none)
  else if n.id0.key == KeyXBinaryStar then (setCV q n.nid (l * r), none)
  else if n.id0.key == KeyXBinarySlash then
    if r == 0 then (q, some .divByZero)
    else (setCV q n.nid (bigDiv l r), none)
  else if n.id0.key == KeyXBinaryShiftL then
    if r < 0 || r > ffff then (q, some .shiftOutOfRange)
    else (setCV q n.nid (bigLsh l r.toNat), none)
  else if n.id0.key == KeyXBinaryShiftR then
    if r < 0 || r > ffff then (q, some .shiftOutOfRange)
    else (setCV q n.nid (bigRsh l r.toNat), none)
  else if n.id0.key == KeyXBinaryAmp then (setCV q n.nid (Int.land l r), none)
  else if n.id0.key == KeyXBinaryAmpHat then (setCV q n.nid (bigAndNot l r), none)
  else if n.id0.key == KeyXBinaryPipe then (setCV q n.nid (Int.lor l r), none)
  else if n.id0.key == KeyXBinaryHat then (setCV q n.nid (Int.xor l r), none)
  else if n.id0.key == KeyXBinaryNotEq then (setCV q n.nid (btoi (l != r)), none)
  else if n.id0.key == KeyXBinaryLessThan then (setCV q n.nid (btoi (decide (l < r))), none)
  else if n.id0.key == KeyXBinaryLessEq then (setCV q n.nid (btoi (decide (l ≤ r))), none)
  else if n.id0.key == KeyXBinaryEqEq then (setCV q n.nid (btoi (l == r)), none)
  else if n.id0.key == KeyXBinaryGreaterEq then (setCV q n.nid (btoi (decide (l ≥ r))), none)
  else if n.id0.key == KeyXBinaryGreaterThan then (setCV q n.nid (btoi (decide (l > r))), none)
  else if n.id0.key == KeyXBinaryAnd then (setCV q n.nid (btoi (l != 0 && r != 0)), none)
  else if n.id0.key == KeyXBinaryOr then (setCV q n.nid (btoi (l != 0 || r != 0)), none)
  else (q, none)

example : teq TypeExprBool TypeExprBool = true := rfl
example : teq TypeExprBool TypeExprIdeal = false := rfl
example : numeric TypeExprIdeal = true := rfl
example : numeric TypeExprBool = false := rfl
example : numeric TypeExprU8 = true := rfl
example : bigDiv (-7) 2 = -4 := rfl
example : bigRsh (-1) 1 = -1 := rfl

/-- The first operator switch of `tcheckExprBinaryOp`: the per-operator
category rule (`!=`/`==` unrestricted, `&&`/`||` boolean on both sides,
anything else numeric on both sides); `none` when the operands pass. -/
def binOpCategorySel (k : Nat) (lTyp rTyp : Node) : Option Err :=
  if k == KeyXBinaryNotEq || k == KeyXBinaryEqEq then none
  else if k == KeyXBinaryAnd || k == KeyXBinaryOr then
    if ¬ teq lTyp TypeExprBool then some .binaryNotBool
    else if ¬ teq rTyp TypeExprBool then some .binaryNotBool
    else none
  else if ¬ numeric lTyp then some .binaryNotNumeric
  else if ¬ numeric rTyp then some .binaryNotNumeric
  else none

/-- The second operator switch of `tcheckExprBinaryOp`: the compatibility
rule (shift of an ideal by a non-ideal is rejected; otherwise the operand
types must agree ignoring refinements unless one side is ideal). -/
def binOpCompatSel (k : Nat) (lTyp rTyp : Node) : Option Err :=
  if k == KeyXBinaryShiftL || k == KeyXBinaryShiftR then
    if teq lTyp TypeExprIdeal && !teq rTyp TypeExprIdeal then
      some .cannotShiftIdealByNonIdeal
    else none
  else
    if !eqIgnoringRefinements lTyp rTyp && !teq lTyp TypeExprIdeal &&
        !teq rTyp TypeExprIdeal then
      some .incompatibleBinary
    else none

mutual

/-- `tcheckVars` of `type.go`: the variable pre-pass.  A `Var` node is
rejected when its name is already registered, otherwise its declared type
is checked and the name registered; any other node recurses into its two
child lists (and never into the `lhs`/`mhs`/`rhs` child slots, so
expression subtrees are not entered). -/
def tcheckVars : Nat → CState → Node → CState × Option Err
  | 0, q, _ => (q, some .outOfFuel)
  | fuel + 1, q, n =>
    if n.kind = .KVar then
      if (lookupLV q n.id1).isSome then (q, some .duplicateVar)
      else
        match n.lhs with
        | none => (q, some .internalNil)
        | some xt =>
          match tcheckTypeExpr fuel q xt 0 with
          | (q1, some e) => (q1, some e)
          | (q1, none) => (setLV q1 n.id1 xt, none)
    else
      match tcheckVarsList fuel q n.list0 with
      | (q1, some e) => (q1, some e)
      | (q1, none) => tcheckVarsList fuel q1 n.list1
termination_by structural fuel _ _ => fuel

/-- The inner loop of `tcheckVars` over one child list. -/
def tcheckVarsList : Nat → CState → List Node → CState × Option Err
  | 0, q, _ => (q, some .outOfFuel)
  | _ + 1, q, [] => (q, none)
  | fuel + 1, q, o :: t =>
    match tcheckVars fuel q o with
    | (q1, some e) => (q1, some e)
    | (q1, none) => tcheckVarsList fuel q1 t
termination_by structural fuel _ _ => fuel

/-- `tcheckStatement` of `type.go`: dispatch on the statement's kind; on
success the statement node is marked type-checked (the `KIf` case returns
early, marking the whole chain itself). -/
def tcheckStatement : Nat → CState → Node → CState × Option Err
  | 0, q, _ => (q, some .outOfFuel)
  | fuel + 1, q, n =>
    match n.kind with
    | .KAssert =>
      match tcheckAssert fuel q n with
      | (q1, some e) => (q1, some e)
      | (q1, none) => (setTypeChecked q1 n.nid, none)
    | .KAssign =>
      match tcheckAssign fuel q n with
      | (q1, some e) => (q1, some e)
      | (q1, none) => (setTypeChecked q1 n.nid, none)
    | .KIf =>
      match tcheckIfChain fuel q n with
      | (q1, some e) => (q1, some e)
      | (q1, none) => (markIfChain fuel q1 n, none)
    | .KJump =>
      let jt : Option Node :=
        if n.id1.key ≠ 0 then searchJumpTargets q.jumpTargets n.id1
        else q.jumpTargets.getLast?
      match jt with
      | none => (q, some .noJumpTarget)
      | some w =>
        let q1 := if n.id0.key == KeyBreak then setHasBreak q w.nid
                  else setHasContinue q w.nid
        let q2 := setJumpTarg q1 n.nid w.nid
        (setTypeChecked q2 n.nid, none)
    | .KReturn =>
      match n.lhs with
      | none => (setTypeChecked q n.nid, none)
      | some v =>
        match tcheckExpr fuel q v 0 with
        | (q1, some e) => (q1, some e)
        | (q1, none) => (setTypeChecked q1 n.nid, none)
    | .KVar =>
      match n.lhs with
      | none => (q, some .internalNil)
      | some xt =>
        if ¬ lookupTC q xt.nid then (q, some .uncheckedTypeExpression)
        else
          match n.rhs with
          | none => (setTypeChecked q n.nid, none)
          | some v =>
            match tcheckExpr fuel q v 0 with
            | (q1, some e) => (q1, some e)
            | (q1, none) => (setTypeChecked q1 n.nid, none)
    | .KWhile =>
      match n.lhs with
      | none => (q, some .internalNil)
      | some cond =>
        match tcheckExpr fuel q cond 0 with
        | (q1, some e) => (q1, some e)
        | (q1, none) =>
          match lookupMT q1 cond.nid with
          | none => (q1, some .internalNil)
          | some mt =>
            if ¬ teq mt TypeExprBool then (q1, some .notBool)
            else
              match tcheckAssertNodeList fuel q1 n.list0 with
              | (q2, some e) => (q2, some e)
              | (q2, none) =>
                let q3 := { q2 with jumpTargets := q2.jumpTargets ++ [n] }
                match tcheckStatementList fuel q3 n.list1 with
                | (q4, e) =>
                  let q5 := { q4 with jumpTargets := q4.jumpTargets.dropLast }
                  match e with
                  | some e1 => (q5, some e1)
                  | none => (setTypeChecked q5 n.nid, none)
    | _ => (q, some .unrecognizedStmtKind)
termination_by structural fuel _ _ => fuel

/-- The statement-list loop (the bodies of `If` and `While`). -/
def tcheckStatementList : Nat → CState → List Node → CState × Option Err
  | 0, q, _ => (q, some .outOfFuel)
  | _ + 1, q, [] => (q, none)
  | fuel + 1, q, o :: t =>
    match tcheckStatement fuel q o with
    | (q1, some e) => (q1, some e)
    | (q1, none) => tcheckStatementList fuel q1 t
termination_by structural fuel _ _ => fuel

/-- The first loop of the `KIf` case of `tcheckStatement`: for each node
of the else-if chain, check the condition (which must be boolean) and
every statement of both bodies, then move to the `else_if` successor.  No
chain node is marked here. -/
def tcheckIfChain : Nat → CState → Node → CState × Option Err
  | 0, q, _ => (q, some .outOfFuel)
  | fuel + 1, q, n =>
    match n.lhs with
    | none => (q, some .internalNil)
    | some cond =>
      match tcheckExpr fuel q cond 0 with
      | (q1, some e) => (q1, some e)
      | (q1, none) =>
        match lookupMT q1 cond.nid with
        | none => (q1, some .internalNil)
        | some mt =>
          if ¬ teq mt TypeExprBool then (q1, some .notBool)
          else
            match tcheckStatementList fuel q1 n.list0 with
            | (q2, some e) => (q2, some e)
            | (q2, none) =>
              match tcheckStatementList fuel q2 n.list1 with
              | (q3, some e) => (q3, some e)
              | (q3, none) =>
                match n.rhs with
                | none => (q3, none)
                | some elseif => tcheckIfChain fuel q3 elseif
termination_by structural fuel _ _ => fuel

/-- The second loop of the `KIf` case of `tcheckStatement`: after the
whole chain has checked without error, mark every node of the chain. -/
def markIfChain : Nat → CState → Node → CState
  | 0, q, _ => q
  | fuel + 1, q, n =>
    let q1 := setTypeChecked q n.nid
    match n.rhs with
    | none => q1
    | some elseif => markIfChain fuel q1 elseif
termination_by structural fuel _ _ => fuel

/-- `tcheckAssert` of `type.go`: the condition must check and be boolean;
each reason argument's value is checked and the argument marked. -/
def tcheckAssert : Nat → CState → Node → CState × Option Err
  | 0, q, _ => (q, some .outOfFuel)
  | fuel + 1, q, n =>
    match n.rhs with
    | none => (q, some .internalNil)
    | some cond =>
      match tcheckExpr fuel q cond 0 with
      | (q1, some e) => (q1, some e)
      | (q1, none) =>
        match lookupMT q1 cond.nid with
        | none => (q1, some .internalNil)
        | some mt =>
          if ¬ teq mt TypeExprBool then (q1, some .notBool)
          else tcheckAssertArgList fuel q1 n.list0

/-- The argument loop of `tcheckAssert`. -/
def tcheckAssertArgList : Nat → CState → List Node → CState × Option Err
  | 0, q, _ => (q, some .outOfFuel)
  | _ + 1, q, [] => (q, none)
  | fuel + 1, q, o :: t =>
    match o.rhs with
    | none => (q, some .internalNil)
    | some v =>
      match tcheckExpr fuel q v 0 with
      | (q1, some e) => (q1, some e)
      | (q1, none) => tcheckAssertArgList fuel (setTypeChecked q1 o.nid) t
termination_by structural fuel _ _ => fuel

/-- The assert loop of the `KWhile` case: check each assert node and mark
it. -/
def tcheckAssertNodeList : Nat → CState → List Node → CState × Option Err
  | 0, q, _ => (q, some .outOfFuel)
  | _ + 1, q, [] => (q, none)
  | fuel + 1, q, o :: t =>
    match tcheckAssert fuel q o with
    | (q1, some e) => (q1, some e)
    | (q1, none) => tcheckAssertNodeList fuel (setTypeChecked q1 o.nid) t
termination_by structural fuel _ _ => fuel

/-- `tcheckAssign` of `type.go`: check both sides, then apply the
plain-assign or compound-assign acceptance rule to their implicit types. -/
def tcheckAssign : Nat → CState → Node → CState × Option Err
  | 0, q, _ => (q, some .outOfFuel)
  | fuel + 1, q, n =>
    match n.lhs, n.rhs with
    | some lhs, some rhs =>
      match tcheckExpr fuel q lhs 0 with
      | (q1, some e) => (q1, some e)
      | (q1, none) =>
        match tcheckExpr fuel q1 rhs 0 with
        | (q2, some e) => (q2, some e)
        | (q2, none) =>
          match lookupMT q2 lhs.nid, lookupMT q2 rhs.nid with
          | some lTyp, some rTyp =>
            if n.id0.key == KeyEq then
              if (teq rTyp TypeExprIdeal && lTyp.IsNumType) ||
                  eqIgnoringRefinements lTyp rTyp then (q2, none)
              else (q2, some .notAssignable)
            else if ¬ lTyp.IsNumType then (q2, some .assigneeNotNumeric)
            else if n.id0.key == KeyShiftLEq || n.id0.key == KeyShiftREq then
              if rTyp.IsNumType then (q2, none)
              else (q2, some .shiftOperandNotNumeric)
            else if teq rTyp TypeExprIdeal || eqIgnoringRefinements lTyp rTyp then
              (q2, none)
            else (q2, some .incompatibleAssign)
          | _, _ => (q2, some .internalNil)
    | _, _ => (q, some .internalNil)

/-- `tcheckArg` of `type.go`: check the argument's value and mark the
argument node. -/
def tcheckArg : Nat → CState → Node → Nat → CState × Option Err
  | 0, q, _, _ => (q, some .outOfFuel)
  | fuel + 1, q, n, depth =>
    match n.rhs with
    | none => (q, some .internalNil)
    | some v =>
      match tcheckExpr fuel q v depth with
      | (q1, some e) => (q1, some e)
      | (q1, none) => (setTypeChecked q1 n.nid, none)
termination_by structural fuel _ _ _ => fuel

/-- The argument loop of the `low_bits` call shape. -/
def tcheckArgList : Nat → CState → List Node → Nat → CState × Option Err
  | 0, q, _, _ => (q, some .outOfFuel)
  | _ + 1, q, [], _ => (q, none)
  | fuel + 1, q, o :: t, depth =>
    match tcheckArg fuel q o depth with
    | (q1, some e) => (q1, some e)
    | (q1, none) => tcheckArgList fuel q1 t depth
termination_by structural fuel _ _ _ => fuel

/-- `tcheckExpr` of `type.go`: fail `TooDeep` when the depth parameter
exceeds `MaxExprDepth`, increment it, dispatch on the operator-category
flags of `id0`, and on success mark the expression node. -/
def tcheckExpr : Nat → CState → Node → Nat → CState × Option Err
  | 0, q, _, _ => (q, some .outOfFuel)
  | fuel + 1, q, n, depth =>
    if depth > MaxExprDepth then (q, some .tooDeep)
    else
      let depth1 := depth + 1
      let mask := n.id0.flags &&& (FlagsUnaryOp ||| FlagsBinaryOp ||| FlagsAssociativeOp)
      let r : CState × Option Err :=
        if mask == 0 then tcheckExprOther fuel q n depth1
        else if mask == FlagsUnaryOp then tcheckExprUnaryOp fuel q n depth1
        else if mask == FlagsBinaryOp then tcheckExprBinaryOp fuel q n depth1
        else if mask == FlagsAssociativeOp then tcheckExprAssociativeOp fuel q n depth1
        else (q, some .unrecognizedExprKey)
      match r with
      | (q1, some e) => (q1, some e)
      | (q1, none) => (setTypeChecked q1 n.nid, none)
termination_by structural fuel _ _ _ => fuel

/-- `tcheckExprOther` of `type.go`: leaves (numeric literals, identifiers,
`true`/`false`) and the shape-tagged forms — the two hard-coded call
shapes, the unchecked index and slice shapes, and the selector. -/
def tcheckExprOther : Nat → CState → Node → Nat → CState × Option Err
  | 0, q, _, _ => (q, some .outOfFuel)
  | fuel + 1, q, n, depth =>
    if n.id0.key == 0 then
      if n.id1.isNumLitTok then
        match setStringBase0 n.id1.lexeme with
        | none => (q, some .invalidNumLit)
        | some z => (setMT (setCV q n.nid z) n.nid TypeExprIdeal, none)
      else if n.id1.isIdentTok then
        match lookupLV q n.id1 with
        | some typ => (setMT q n.nid typ, none)
        | none => (q, some .unknownIdent)
      else if n.id1.key == KeyFalse then
        (setMT (setCV q n.nid 0) n.nid TypeExprBool, none)
      else if n.id1.key == KeyTrue then
        (setMT (setCV q n.nid 1) n.nid TypeExprBool, none)
      else (q, some .unrecognizedExprKey)
    else if n.id0.key == KeyOpenParen then
      match n.lhs with
      | none => (q, some .internalNil)
      | some lhs =>
        if isInSrcReadU8 lhs && n.Suspendible && n.list0.isEmpty then
          match tcheckExpr fuel q lhs depth with
          | (q1, some e) => (q1, some e)
          | (q1, none) => (setMT q1 n.nid TypeExprU8, none)
        else if isLowBits lhs && !n.Impure && n.list0.length == 1 then
          match lhs.lhs with
          | none => (q, some .internalNil)
          | some foo =>
            match tcheckExpr fuel q foo depth with
            | (q1, some e) => (q1, some e)
            | (q1, none) =>
              let q2 := setMT (setTypeChecked q1 lhs.nid) lhs.nid TypeExprU8
              match tcheckArgList fuel q2 n.list0 depth with
              | (q3, some e) => (q3, some e)
              | (q3, none) =>
                match lookupMT q3 foo.nid with
                | none => (q3, some .internalNil)
                | some ft => (setMT q3 n.nid ft, none)
        else (q, some .unrecognizedExprKey)
    else if n.id0.key == KeyOpenBracket then (q, some .unrecognizedExprKey)
    else if n.id0.key == KeyColon then (q, some .unrecognizedExprKey)
    else if n.id0.key == KeyDot then tcheckDot fuel q n depth
    else (q, some .unrecognizedExprKey)
termination_by structural fuel _ _ _ => fuel

/-- `tcheckDot` of `type.go`: check the receiver, strip pointer
decorators from its type, resolve the struct to inspect (`in`, `out`, the
`buf1` byte hack, or a registered struct) and select the named field. -/
def tcheckDot : Nat → CState → Node → Nat → CState × Option Err
  | 0, q, _, _ => (q, some .outOfFuel)
  | fuel + 1, q, n, depth =>
    match n.lhs with
    | none => (q, some .internalNil)
    | some lhs =>
      match tcheckExpr fuel q lhs depth with
      | (q1, some e) => (q1, some e)
      | (q1, none) =>
        match lookupMT q1 lhs.nid with
        | none => (q1, some .internalNil)
        | some lTyp0 =>
          let lTyp := stripPtrs fuel lTyp0
          if lTyp.id0.key ≠ 0 then (q1, some .unsupportedPackageOrDecorator)
          else if lTyp.id1.key == KeyBuf1 then (setMT q1 n.nid TypeExprU8, none)
          else
            let s : Option Node :=
              if lTyp.id1.key == KeyIn then q1.funcIn
              else if lTyp.id1.key == KeyOut then q1.funcOut
              else q1.structs.lookup lTyp.id1.key
            match s with
            | none => (q1, some .noStructType)
            | some st =>
              match findField st.list0 n.id1 with
              | none => (q1, some .noSuchField)
              | some f =>
                match f.lhs with
                | none => (q1, some .internalNil)
                | some ft => (setMT q1 n.nid ft, none)
termination_by structural fuel _ _ _ => fuel

/-- The pointer-stripping loop of `tcheckDot`. -/
def stripPtrs : Nat → Node → Node
  | 0, t => t
  | fuel + 1, t =>
    if t.id0.key == KeyPtr then
      match t.rhs with
      | some inner => stripPtrs fuel inner
      | none => t
    else t
termination_by structural fuel _ => fuel

/-- `tcheckExprUnaryOp` of `type.go`: arithmetic unary operators need a
numeric operand and fold constants (unary minus negates); logical not
needs a boolean operand and folds by comparison with zero. -/
def tcheckExprUnaryOp : Nat → CState → Node → Nat → CState × Option Err
  | 0, q, _, _ => (q, some .outOfFuel)
  | fuel + 1, q, n, depth =>
    match n.rhs with
    | none => (q, some .internalNil)
    | some rhs =>
      match tcheckExpr fuel q rhs depth with
      | (q1, some e) => (q1, some e)
      | (q1, none) =>
        match lookupMT q1 rhs.nid with
        | none => (q1, some .internalNil)
        | some rTyp =>
          if n.id0.key == KeyXUnaryPlus || n.id0.key == KeyXUnaryMinus then
            if ¬ numeric rTyp then (q1, some .unaryNotNumeric)
            else
              let q2 :=
                match lookupCV q1 rhs.nid with
                | some cv =>
                  setCV q1 n.nid (if n.id0.key == KeyXUnaryMinus then -cv else cv)
                | none => q1
              (setMT q2 n.nid rTyp, none)
          else if n.id0.key == KeyXUnaryNot then
            if ¬ teq rTyp TypeExprBool then (q1, some .unaryNotBool)
            else
              let q2 :=
                match lookupCV q1 rhs.nid with
                | some cv => setCV q1 n.nid (btoi (cv == 0))
                | none => q1
              (setMT q2 n.nid TypeExprBool, none)
          else (q1, some .unrecognizedExprKey)
termination_by structural fuel _ _ _ => fuel

/-- `tcheckExprBinaryOp` of `type.go`: check the left side; `as` casts
check the right side as a type expression; otherwise check the right
side, enforce the per-operator category rules and the compatibility
rules, fold constants when both sides carry them, and compute the result
type (comparisons are boolean, otherwise the non-ideal side wins,
preferring the left). -/
def tcheckExprBinaryOp : Nat → CState → Node → Nat → CState × Option Err
  | 0, q, _, _ => (q, some .outOfFuel)
  | fuel + 1, q, n, depth =>
    match n.lhs with
    | none => (q, some .internalNil)
    | some lhs =>
      match tcheckExpr fuel q lhs depth with
      | (q1, some e) => (q1, some e)
      | (q1, none) =>
        match lookupMT q1 lhs.nid with
        | none => (q1, some .internalNil)
        | some lTyp =>
          if n.id0.key == KeyXBinaryAs then
            match n.rhs with
            | none => (q1, some .internalNil)
            | some rhsT =>
              match tcheckTypeExpr fuel q1 rhsT 0 with
              | (q2, some e) => (q2, some e)
              | (q2, none) =>
                if numeric lTyp && rhsT.IsNumType then (setMT q2 n.nid rhsT, none)
                else (q2, some .cannotConvert)
          else
            match n.rhs with
            | none => (q1, some .internalNil)
            | some rhs =>
              match tcheckExpr fuel q1 rhs depth with
              | (q2, some e) => (q2, some e)
              | (q2, none) =>
                match lookupMT q2 rhs.nid with
                | none => (q2, some .internalNil)
                | some rTyp =>
                  match binOpCategorySel n.id0.key lTyp rTyp with
                  | some e => (q2, some e)
                  | none =>
                    match binOpCompatSel n.id0.key lTyp rTyp with
                    | some e => (q2, some e)
                    | none =>
                      let fr : CState × Option Err :=
                        match lookupCV q2 lhs.nid, lookupCV q2 rhs.nid with
                        | some l, some r => setConstValueBinaryOp q2 n l r
                        | _, _ => (q2, none)
                      match fr with
                      | (q3, some e) => (q3, some e)
                      | (q3, none) =>
                        let mt :=
                          if comparisonOps n.id0.key then TypeExprBool
                          else if ¬ teq lTyp TypeExprIdeal then lTyp
                          else rTyp
                        (setMT q3 n.nid mt, none)
termination_by structural fuel _ _ _ => fuel

/-- `tcheckExprAssociativeOp` of `type.go`: a documented TODO — always an
error. -/
def tcheckExprAssociativeOp : Nat → CState → Node → Nat → CState × Option Err
  | 0, q, _, _ => (q, some .outOfFuel)
  | _ + 1, q, _, _ => (q, some .unrecognizedExprKey)

/-- `tcheckTypeExpr` of `type.go`: fail when the depth parameter exceeds
`MaxTypeExprDepth`; a named numeric primitive checks its refinement
bounds (each must check and be constant); `bool` and `buf1` are accepted
as is; `ptr` and array decorators recurse (an array length must check and
be constant); on success the type expression is marked checked. -/
def tcheckTypeExpr : Nat → CState → Node → Nat → CState × Option Err
  | 0, q, _, _ => (q, some .outOfFuel)
  | fuel + 1, q, n, depth =>
    if depth > MaxTypeExprDepth then (q, some .typeTooDeep)
    else
      let depth1 := depth + 1
      if n.id0.key == 0 then
        if n.id1.isNumTypeTok then
          match tcheckBound fuel q n.lhs with
          | (q1, some e) => (q1, some e)
          | (q1, none) =>
            match tcheckBound fuel q1 n.mhs with
            | (q2, some e) => (q2, some e)
            | (q2, none) => (setTypeChecked q2 n.nid, none)
        else if n.id1.key == KeyBool || n.id1.key == KeyBuf1 then
          (setTypeChecked q n.nid, none)
        else (q, some .notAType)
      else if n.id0.key == KeyPtr then
        match n.rhs with
        | none => (q, some .internalNil)
        | some inner =>
          match tcheckTypeExpr fuel q inner depth1 with
          | (q1, some e) => (q1, some e)
          | (q1, none) => (setTypeChecked q1 n.nid, none)
      else if n.id0.key == KeyOpenBracket then
        match n.lhs with
        | none => (q, some .internalNil)
        | some aLen =>
          match tcheckExpr fuel q aLen 0 with
          | (q1, some e) => (q1, some e)
          | (q1, none) =>
            if (lookupCV q1 aLen.nid).isNone then (q1, some .arrayLengthNotConstant)
            else
              match n.rhs with
              | none => (q1, some .internalNil)
              | some inner =>
                match tcheckTypeExpr fuel q1 inner depth1 with
                | (q2, some e) => (q2, some e)
                | (q2, none) => (setTypeChecked q2 n.nid, none)
      else (q, some .unrecognizedTypeExprNode)
termination_by structural fuel _ _ _ => fuel

/-- The refinement-bound loop of `tcheckTypeExpr`: an absent bound is
skipped; a present bound must check as an expression (at depth zero) and
carry a constant value. -/
def tcheckBound : Nat → CState → Option Node → CState × Option Err
  | 0, q, _ => (q, some .outOfFuel)
  | _ + 1, q, none => (q, none)
  | fuel + 1, q, some b =>
    match tcheckExpr fuel q b 0 with
    | (q1, some e) => (q1, some e)
    | (q1, none) =>
      if (lookupCV q1 b.nid).isNone then (q1, some .boundNotConstant)
      else (q1, none)
termination_by structural fuel _ _ => fuel

end

/-- Modelled from the spec: the per-function driver (`check_func`, whose
source file is outside the two core files) first runs the variable
pre-pass over every body statement, then checks each body statement
(spec sections 4.2.1 to 4.2.3). -/
def checkFuncBody (fuel : Nat) (q : CState) (body : List Node) : CState × Option Err :=
  match tcheckVarsList fuel q body with
  | (q1, some e) => (q1, some e)
  | (q1, none) => tcheckStatementList fuel q1 body

/-- A placeholder node, used only for specification values that a failing
run never inspects. -/
def deadNode : Node := .mk 0 .KInvalid 0 TokID.zero TokID.zero none none none [] []

mutual

/-- All node identities occurring in a tree. -/
def nodeNids : Node → List Nat
  | .mk i _ _ _ _ l m r s t =>
    i :: (nidsOpt l ++ nidsOpt m ++ nidsOpt r ++ nidsList s ++ nidsList t)

def nidsOpt : Option Node → List Nat
  | none => []
  | some n => nodeNids n

def nidsList : List Node → List Nat
  | [] => []
  | n :: t => nodeNids n ++ nidsList t

end

mutual

/-- The nesting depth of a tree: one plus the maximum over all children. -/
def nodeDepth : Node → Nat
  | .mk _ _ _ _ _ l m r s t =>
    1 + max (max (max (depthOpt l) (depthOpt m)) (depthOpt r))
        (max (depthList s) (depthList t))

def depthOpt : Option Node → Nat
  | none => 0
  | some n => nodeDepth n

def depthList : List Node → Nat
  | [] => 0
  | n :: t => max (nodeDepth n) (depthList t)

end

mutual

/-- The node identities of an if/else-if chain: the node itself and the
chain reached through its `rhs` (`else_if`) slot. -/
def chainNids : Node → List Nat
  | .mk i _ _ _ _ _ _ r _ _ => i :: chainNidsOpt r

def chainNidsOpt : Option Node → List Nat
  | none => []
  | some n => chainNids n

end

mutual

/-- The specification-side view of the variable pre-pass (spec section
4.2.2): the `(name, declared type)` pairs of the `Var` declarations
reachable through statement lists only — recursion descends into both
child lists of every node and never into the `lhs`/`mhs`/`rhs`
(expression) slots. -/
def varSeq : Node → List (TokID × Node)
  | .mk _ k _ _ b l _ _ s t =>
    if k = .KVar then [(b, match l with | some xt => xt | none => deadNode)]
    else varSeqList s ++ varSeqList t

def varSeqList : List Node → List (TokID × Node)
  | [] => []
  | n :: t => varSeq n ++ varSeqList t

end

/-- Preservation: the checker call left the jump-target stack and the
local-variable table unchanged, and did not touch the `TypeChecked`
annotation of any node outside the set `S`. -/
def Pres (q r : CState) (S : List Nat) : Prop :=
  r.jumpTargets = q.jumpTargets ∧ r.localVars = q.localVars ∧
    ∀ m, m ∉ S → (m ∈ r.typeChecked ↔ m ∈ q.typeChecked)

theorem Pres.refl (q : CState) (S : List Nat) : Pres q q S :=
  ⟨rfl, rfl, fun _ _ => Iff.rfl⟩

theorem Pres.trans {q r t : CState} {S : List Nat}
    (h1 : Pres q r S) (h2 : Pres r t S) : Pres q t S :=
  ⟨h2.1.trans h1.1, h2.2.1.trans h1.2.1,
    fun m hm => (h2.2.2 m hm).trans (h1.2.2 m hm)⟩

theorem Pres.mono {q r : CState} {S T : List Nat}
    (h : Pres q r S) (hsub : ∀ m, m ∈ S → m ∈ T) : Pres q r T :=
  ⟨h.1, h.2.1, fun m hm => h.2.2 m (fun hx => hm (hsub m hx))⟩

theorem pres_setCV (q : CState) (i : Nat) (z : Int) (S : List Nat) :
    Pres q (setCV q i z) S := ⟨rfl, rfl, fun _ _ => Iff.rfl⟩

theorem pres_setMT (q : CState) (i : Nat) (t : Node) (S : List Nat) :
    Pres q (setMT q i t) S := ⟨rfl, rfl, fun _ _ => Iff.rfl⟩

theorem pres_setHasBreak (q : CState) (i : Nat) (S : List Nat) :
    Pres q (setHasBreak q i) S := ⟨rfl, rfl, fun _ _ => Iff.rfl⟩

theorem pres_setHasContinue (q : CState) (i : Nat) (S : List Nat) :
    Pres q (setHasContinue q i) S := ⟨rfl, rfl, fun _ _ => Iff.rfl⟩

theorem pres_setJumpTarg (q : CState) (i w : Nat) (S : List Nat) :
    Pres q (setJumpTarg q i w) S := ⟨rfl, rfl, fun _ _ => Iff.rfl⟩

theorem pres_setTypeChecked {i : Nat} {S : List Nat} (q : CState) (h : i ∈ S) :
    Pres q (setTypeChecked q i) S := by
  refine ⟨rfl, rfl, fun m hm => ?_⟩
  have hts : (setTypeChecked q i).typeChecked = i :: q.typeChecked := rfl
  rw [hts, List.mem_cons]
  constructor
  · rintro (hrfl | hmem)
    · exact absurd (hrfl ▸ h) hm
    · exact hmem
  · exact Or.inr

theorem nid_mem_nodeNids (n : Node) : n.nid ∈ nodeNids n := by
  cases n with
  | mk i k f a b l m r s t => simp [nodeNids, Node.nid]

theorem lhs_nids_sub {n c : Node} (h : n.lhs = some c) :
    ∀ x ∈ nodeNids c, x ∈ nodeNids n := by
  cases n with
  | mk i k f a b l m r s t =>
    cases l with
    | none => simp [Node.lhs] at h
    | some c0 =>
      simp only [Node.lhs, Option.some.injEq] at h
      subst h
      intro x hx
      simp [nodeNids, nidsOpt, hx]

theorem mhs_nids_sub {n c : Node} (h : n.mhs = some c) :
    ∀ x ∈ nodeNids c, x ∈ nodeNids n := by
  cases n with
  | mk i k f a b l m r s t =>
    cases m with
    | none => simp [Node.mhs] at h
    | some c0 =>
      simp only [Node.mhs, Option.some.injEq] at h
      subst h
      intro x hx
      simp [nodeNids, nidsOpt, hx]

theorem rhs_nids_sub {n c : Node} (h : n.rhs = some c) :
    ∀ x ∈ nodeNids c, x ∈ nodeNids n := by
  cases n with
  | mk i k f a b l m r s t =>
    cases r with
    | none => simp [Node.rhs] at h
    | some c0 =>
      simp only [Node.rhs, Option.some.injEq] at h
      subst h
      intro x hx
      simp [nodeNids, nidsOpt, hx]

theorem list0_nids_sub (n : Node) :
    ∀ x ∈ nidsList n.list0, x ∈ nodeNids n := by
  cases n with
  | mk i k f a b l m r s t =>
    intro x hx
    simp [nodeNids, Node.list0] at hx ⊢
    tauto

theorem list1_nids_sub (n : Node) :
    ∀ x ∈ nidsList n.list1, x ∈ nodeNids n := by
  cases n with
  | mk i k f a b l m r s t =>
    intro x hx
    simp [nodeNids, Node.list1] at hx ⊢
    tauto

theorem lhsOpt_nids_sub (n : Node) :
    ∀ x ∈ nidsOpt n.lhs, x ∈ nodeNids n := by
  cases n with
  | mk i k f a b l m r s t =>
    intro x hx
    simp [nodeNids, Node.lhs] at hx ⊢
    tauto

theorem mhsOpt_nids_sub (n : Node) :
    ∀ x ∈ nidsOpt n.mhs, x ∈ nodeNids n := by
  cases n with
  | mk i k f a b l m r s t =>
    intro x hx
    simp [nodeNids, Node.mhs] at hx ⊢
    tauto

theorem nidsList_head_sub (o : Node) (t : List Node) :
    ∀ x ∈ nodeNids o, x ∈ nidsList (o :: t) := by
  intro x hx
  simp [nidsList, hx]

theorem nidsList_tail_sub (o : Node) (t : List Node) :
    ∀ x ∈ nidsList t, x ∈ nidsList (o :: t) := by
  intro x hx
  simp [nidsList, hx]

theorem presFold (q : CState) (n : Node) (l r : Int) (S : List Nat)
    {q1 : CState} {e : Option Err} (h : setConstValueBinaryOp q n l r = (q1, e)) :
    Pres q q1 S ∧ e ≠ some Err.duplicateVar := by
  unfold setConstValueBinaryOp at h
  by_cases h1 : (n.id0.key == KeyXBinaryPlus) = true
  · rw [if_pos h1] at h; cases h; exact ⟨pres_setCV _ _ _ _, by simp⟩
  rw [if_neg h1] at h
  by_cases h2 : (n.id0.key == KeyXBinaryMinus) = true
  · rw [if_pos h2] at h; cases h; exact ⟨pres_setCV _ _ _ _, by simp⟩
  rw [if_neg h2] at h
  by_cases h3 : (n.id0.key == KeyXBinaryStar) = true
  · rw [if_pos h3] at h; cases h; exact ⟨pres_setCV _ _ _ _, by simp⟩
  rw [if_neg h3] at h
  by_cases h4 : (n.id0.key == KeyXBinarySlash) = true
  · rw [if_pos h4] at h
    by_cases h4z : (r == 0) = true
    · rw [if_pos h4z] at h; cases h; exact ⟨Pres.refl _ _, by simp⟩
    · rw [if_neg h4z] at h; cases h; exact ⟨pres_setCV _ _ _ _, by simp⟩
  rw [if_neg h4] at h
  by_cases h5 : (n.id0.key == KeyXBinaryShiftL) = true
  · rw [if_pos h5] at h
    by_cases h5z : (decide (r < 0) || decide (r > ffff)) = true
    · rw [if_pos h5z] at h; cases h; exact ⟨Pres.refl _ _, by simp⟩
    · rw [if_neg h5z] at h; cases h; exact ⟨pres_setCV _ _ _ _, by simp⟩
  rw [if_neg h5] at h
  by_cases h6 : (n.id0.key == KeyXBinaryShiftR) = true
  · rw [if_pos h6] at h
    by_cases h6z : (decide (r < 0) || decide (r > ffff)) = true
    · rw [if_pos h6z] at h; cases h; exact ⟨Pres.refl _ _, by simp⟩
    · rw [if_neg h6z] at h; cases h; exact ⟨pres_setCV _ _ _ _, by simp⟩
  rw [if_neg h6] at h
  by_cases h7 : (n.id0.key == KeyXBinaryAmp) = true
  · rw [if_pos h7] at h; cases h; exact ⟨pres_setCV _ _ _ _, by simp⟩
  rw [if_neg h7] at h
  by_cases h8 : (n.id0.key == KeyXBinaryAmpHat) = true
  · rw [if_pos h8] at h; cases h; exact ⟨pres_setCV _ _ _ _, by simp⟩
  rw [if_neg h8] at h
  by_cases h9 : (n.id0.key == KeyXBinaryPipe) = true
  · rw [if_pos h9] at h; cases h; exact ⟨pres_setCV _ _ _ _, by simp⟩
  rw [if_neg h9] at h
  by_cases h10 : (n.id0.key == KeyXBinaryHat) = true
  · rw [if_pos h10] at h; cases h; exact ⟨pres_setCV _ _ _ _, by simp⟩
  rw [if_neg h10] at h
  by_cases h11 : (n.id0.key == KeyXBinaryNotEq) = true
  · rw [if_pos h11] at h; cases h; exact ⟨pres_setCV _ _ _ _, by simp⟩
  rw [if_neg h11] at h
  by_cases h12 : (n.id0.key == KeyXBinaryLessThan) = true
  · rw [if_pos h12] at h; cases h; exact ⟨pres_setCV _ _ _ _, by simp⟩
  rw [if_neg h12] at h
  by_cases h13 : (n.id0.key == KeyXBinaryLessEq) = true
  · rw [if_pos h13] at h; cases h; exact ⟨pres_setCV _ _ _ _, by simp⟩
  rw [if_neg h13] at h
  by_cases h14 : (n.id0.key == KeyXBinaryEqEq) = true
  · rw [if_pos h14] at h; cases h; exact ⟨pres_setCV _ _ _ _, by simp⟩
  rw [if_neg h14] at h
  by_cases h15 : (n.id0.key == KeyXBinaryGreaterEq) = true
  · rw [if_pos h15] at h; cases h; exact ⟨pres_setCV _ _ _ _, by simp⟩
  rw [if_neg h15] at h
  by_cases h16 : (n.id0.key == KeyXBinaryGreaterThan) = true
  · rw [if_pos h16] at h; cases h; exact ⟨pres_setCV _ _ _ _, by simp⟩
  rw [if_neg h16] at h
  by_cases h17 : (n.id0.key == KeyXBinaryAnd) = true
  · rw [if_pos h17] at h; cases h; exact ⟨pres_setCV _ _ _ _, by simp⟩
  rw [if_neg h17] at h
  by_cases h18 : (n.id0.key == KeyXBinaryOr) = true
  · rw [if_pos h18] at h; cases h; exact ⟨pres_setCV _ _ _ _, by simp⟩
  rw [if_neg h18] at h
  cases h; exact ⟨Pres.refl _ _, by simp⟩

theorem presAssoc (fuel : Nat) (q : CState) (n : Node) (d : Nat) :
    Pres q (tcheckExprAssociativeOp fuel q n d).1 (nodeNids n) ∧
      (tcheckExprAssociativeOp fuel q n d).2 ≠ some Err.duplicateVar := by
  cases fuel <;> exact ⟨Pres.refl _ _, by simp [tcheckExprAssociativeOp]⟩

theorem catSel_ne_dup {k : Nat} {lTyp rTyp : Node} {e : Err}
    (h : binOpCategorySel k lTyp rTyp = some e) : e ≠ Err.duplicateVar := by
  unfold binOpCategorySel at h
  repeat' split at h
  all_goals first
    | (cases h; decide)
    | exact absurd h (by simp)

theorem compatSel_ne_dup {k : Nat} {lTyp rTyp : Node} {e : Err}
    (h : binOpCompatSel k lTyp rTyp = some e) : e ≠ Err.duplicateVar := by
  unfold binOpCompatSel at h
  repeat' split at h
  all_goals first
    | (cases h; decide)
    | exact absurd h (by simp)

/-- Preservation of both components of a checker result: the state
preserves control data and the `TypeChecked` frame outside `S`, and the
error is never `duplicateVar` (only the variable pre-pass produces it). -/
def PE (q : CState) (r : CState × Option Err) (S : List Nat) : Prop :=
  Pres q r.1 S ∧ r.2 ≠ some Err.duplicateVar

theorem presMaster : ∀ fuel : Nat,
    (∀ q n d, PE q (tcheckExpr fuel q n d) (nodeNids n)) ∧
    (∀ q n d, PE q (tcheckExprOther fuel q n d) (nodeNids n)) ∧
    (∀ q n d, PE q (tcheckDot fuel q n d) (nodeNids n)) ∧
    (∀ q n d, PE q (tcheckExprUnaryOp fuel q n d) (nodeNids n)) ∧
    (∀ q n d, PE q (tcheckExprBinaryOp fuel q n d) (nodeNids n)) ∧
    (∀ q n d, PE q (tcheckTypeExpr fuel q n d) (nodeNids n)) ∧
    (∀ q b, PE q (tcheckBound fuel q b) (nidsOpt b)) ∧
    (∀ q n d, PE q (tcheckArg fuel q n d) (nodeNids n)) ∧
    (∀ q ns d, PE q (tcheckArgList fuel q ns d) (nidsList ns)) ∧
    (∀ q n, PE q (tcheckAssert fuel q n) (nodeNids n)) ∧
    (∀ q ns, PE q (tcheckAssertArgList fuel q ns) (nidsList ns)) ∧
    (∀ q ns, PE q (tcheckAssertNodeList fuel q ns) (nidsList ns)) ∧
    (∀ q n, PE q (tcheckAssign fuel q n) (nodeNids n)) ∧
    (∀ q n, PE q (tcheckStatement fuel q n) (nodeNids n)) ∧
    (∀ q ns, PE q (tcheckStatementList fuel q ns) (nidsList ns)) ∧
    (∀ q n, PE q (tcheckIfChain fuel q n) (nodeNids n)) ∧
    (∀ q n, Pres q (markIfChain fuel q n) (nodeNids n)) := by
  intro fuel
  induction fuel with
  | zero =>
    refine ⟨?_, ?_, ?_, ?_, ?_, ?_, ?_, ?_, ?_, ?_, ?_, ?_, ?_, ?_, ?_, ?_, ?_⟩ <;>
      intros <;>
      first
        | exact ⟨Pres.refl _ _, by simp [tcheckExpr, tcheckExprOther, tcheckDot,
            tcheckExprUnaryOp, tcheckExprBinaryOp, tcheckTypeExpr, tcheckBound,
            tcheckArg, tcheckArgList, tcheckAssert, tcheckAssertArgList,
            tcheckAssertNodeList, tcheckAssign, tcheckStatement,
            tcheckStatementList, tcheckIfChain]⟩
        | exact Pres.refl _ _
  | succ fuel ih =>
    obtain ⟨hExpr, hOther, hDot, hUnary, hBinary, hType, hBound, hArg, hArgL,
      hAssert, hAArgL, hANodeL, hAssign, hStmt, hStmtL, hIf, hMark⟩ := ih
    refine ⟨?_, ?_, ?_, ?_, ?_, ?_, ?_, ?_, ?_, ?_, ?_, ?_, ?_, ?_, ?_, ?_, ?_⟩
    -- tcheckExpr
    · intro q n d
      simp only [tcheckExpr]
      by_cases hd : d > MaxExprDepth
      · rw [if_pos hd]
        exact ⟨Pres.refl _ _, by simp⟩
      · rw [if_neg hd]
        have hdisp : ∀ r : CState × Option Err, PE q r (nodeNids n) →
            PE q (match r with
              | (q1, some e) => (q1, some e)
              | (q1, none) => (setTypeChecked q1 n.nid, none)) (nodeNids n) := by
          rintro ⟨q1, e⟩ h1
          cases e with
          | none => exact ⟨h1.1.trans (pres_setTypeChecked _ (nid_mem_nodeNids n)), by simp⟩
          | some e1 => exact ⟨h1.1, h1.2⟩
        apply hdisp
        repeat' split
        · exact hOther q n (d+1)
        · exact hUnary q n (d+1)
        · exact hBinary q n (d+1)
        · exact presAssoc fuel q n (d+1)
        · exact ⟨Pres.refl _ _, by simp⟩
    -- tcheckExprOther
    · intro q n d
      simp only [tcheckExprOther]
      by_cases h0 : (n.id0.key == 0) = true
      · rw [if_pos h0]
        by_cases hn : n.id1.isNumLitTok = true
        · rw [if_pos hn]
          cases hs : setStringBase0 n.id1.lexeme with
          | none => exact ⟨Pres.refl _ _, by simp⟩
          | some z => exact ⟨(pres_setCV _ _ _ _).trans (pres_setMT _ _ _ _), by simp⟩
        · rw [if_neg hn]
          by_cases hi : n.id1.isIdentTok = true
          · rw [if_pos hi]
            cases hl : lookupLV q n.id1 with
            | some typ => exact ⟨pres_setMT _ _ _ _, by simp⟩
            | none => exact ⟨Pres.refl _ _, by simp⟩
          · rw [if_neg hi]
            by_cases hf : (n.id1.key == KeyFalse) = true
            · rw [if_pos hf]
              exact ⟨(pres_setCV _ _ _ _).trans (pres_setMT _ _ _ _), by simp⟩
            · rw [if_neg hf]
              by_cases ht : (n.id1.key == KeyTrue) = true
              · rw [if_pos ht]
                exact ⟨(pres_setCV _ _ _ _).trans (pres_setMT _ _ _ _), by simp⟩
              · rw [if_neg ht]
                exact ⟨Pres.refl _ _, by simp⟩
      · rw [if_neg h0]
        by_cases hp : (n.id0.key == KeyOpenParen) = true
        · rw [if_pos hp]
          cases hlhs : n.lhs with
          | none => exact ⟨Pres.refl _ _, by simp⟩
          | some lhs =>
            dsimp only
            by_cases hu8 : (isInSrcReadU8 lhs && n.Suspendible && n.list0.isEmpty) = true
            · rw [if_pos hu8]
              have h1 := hExpr q lhs d
              rcases hx : tcheckExpr fuel q lhs d with ⟨q1, e⟩
              rw [hx] at h1
              cases e with
              | some e1 => exact ⟨(h1.1).mono (lhs_nids_sub hlhs), h1.2⟩
              | none =>
                exact ⟨((h1.1).mono (lhs_nids_sub hlhs)).trans (pres_setMT _ _ _ _), by simp⟩
            · rw [if_neg hu8]
              by_cases hlb : (isLowBits lhs && !n.Impure && n.list0.length == 1) = true
              · rw [if_pos hlb]
                cases hfoo : lhs.lhs with
                | none => exact ⟨Pres.refl _ _, by simp⟩
                | some foo =>
                  dsimp only
                  have h1 := hExpr q foo d
                  rcases hx : tcheckExpr fuel q foo d with ⟨q1, e⟩
                  rw [hx] at h1
                  have hfsub : ∀ x ∈ nodeNids foo, x ∈ nodeNids n :=
                    fun x hx0 => lhs_nids_sub hlhs x (lhs_nids_sub hfoo x hx0)
                  cases e with
                  | some e1 => exact ⟨(h1.1).mono hfsub, h1.2⟩
                  | none =>
                    dsimp only
                    have hP1 : Pres q (setMT (setTypeChecked q1 lhs.nid) lhs.nid TypeExprU8)
                        (nodeNids n) :=
                      ((h1.1).mono hfsub).trans
                        ((pres_setTypeChecked q1
                            (lhs_nids_sub hlhs lhs.nid (nid_mem_nodeNids lhs))).trans
                          (pres_setMT _ _ _ _))
                    have h2 := hArgL (setMT (setTypeChecked q1 lhs.nid) lhs.nid TypeExprU8)
                      n.list0 d
                    rcases hy : tcheckArgList fuel
                        (setMT (setTypeChecked q1 lhs.nid) lhs.nid TypeExprU8) n.list0 d
                      with ⟨q3, e3⟩
                    rw [hy] at h2
                    cases e3 with
                    | some e4 =>
                      exact ⟨hP1.trans ((h2.1).mono (list0_nids_sub n)), h2.2⟩
                    | none =>
                      dsimp only
                      have hP3 : Pres q q3 (nodeNids n) :=
                        hP1.trans ((h2.1).mono (list0_nids_sub n))
                      cases hm : lookupMT q3 foo.nid with
                      | none => exact ⟨hP3, by simp⟩
                      | some ft => exact ⟨hP3.trans (pres_setMT _ _ _ _), by simp⟩
              · rw [if_neg hlb]
                exact ⟨Pres.refl _ _, by simp⟩
        · rw [if_neg hp]
          by_cases hb : (n.id0.key == KeyOpenBracket) = true
          · rw [if_pos hb]
            exact ⟨Pres.refl _ _, by simp⟩
          · rw [if_neg hb]
            by_cases hc : (n.id0.key == KeyColon) = true
            · rw [if_pos hc]
              exact ⟨Pres.refl _ _, by simp⟩
            · rw [if_neg hc]
              by_cases hdd : (n.id0.key == KeyDot) = true
              · rw [if_pos hdd]
                exact hDot q n d
              · rw [if_neg hdd]
                exact ⟨Pres.refl _ _, by simp⟩
    -- tcheckDot
    · intro q n d
      simp only [tcheckDot]
      cases hlhs : n.lhs with
      | none => exact ⟨Pres.refl _ _, by simp⟩
      | some lhs =>
        dsimp only
        have h1 := hExpr q lhs d
        rcases hx : tcheckExpr fuel q lhs d with ⟨q1, e⟩
        rw [hx] at h1
        cases e with
        | some e1 => exact ⟨(h1.1).mono (lhs_nids_sub hlhs), h1.2⟩
        | none =>
          dsimp only
          have hP1 : Pres q q1 (nodeNids n) := (h1.1).mono (lhs_nids_sub hlhs)
          cases hm : lookupMT q1 lhs.nid with
          | none => exact ⟨hP1, by simp⟩
          | some lTyp0 =>
            dsimp only
            repeat' split
            all_goals first
              | exact ⟨hP1, by simp⟩
              | exact ⟨hP1.trans (pres_setMT _ _ _ _), by simp⟩
    -- tcheckExprUnaryOp
    · intro q n d
      simp only [tcheckExprUnaryOp]
      cases hrhs : n.rhs with
      | none => exact ⟨Pres.refl _ _, by simp⟩
      | some rhs =>
        dsimp only
        have h1 := hExpr q rhs d
        rcases hx : tcheckExpr fuel q rhs d with ⟨q1, e⟩
        rw [hx] at h1
        cases e with
        | some e1 => exact ⟨(h1.1).mono (rhs_nids_sub hrhs), h1.2⟩
        | none =>
          dsimp only
          have hP1 : Pres q q1 (nodeNids n) := (h1.1).mono (rhs_nids_sub hrhs)
          cases hm : lookupMT q1 rhs.nid with
          | none => exact ⟨hP1, by simp⟩
          | some rTyp =>
            dsimp only
            repeat' split
            all_goals first
              | exact ⟨hP1, by simp⟩
              | exact ⟨hP1.trans (pres_setMT _ _ _ _), by simp⟩
              | exact ⟨hP1.trans ((pres_setCV _ _ _ _).trans (pres_setMT _ _ _ _)), by simp⟩
    -- tcheckExprBinaryOp
    · intro q n d
      simp only [tcheckExprBinaryOp]
      cases hlhs : n.lhs with
      | none => exact ⟨Pres.refl _ _, by simp⟩
      | some lhs =>
        dsimp only
        have h1 := hExpr q lhs d
        rcases hx : tcheckExpr fuel q lhs d with ⟨q1, e⟩
        rw [hx] at h1
        cases e with
        | some e1 => exact ⟨(h1.1).mono (lhs_nids_sub hlhs), h1.2⟩
        | none =>
          dsimp only
          have hP1 : Pres q q1 (nodeNids n) := (h1.1).mono (lhs_nids_sub hlhs)
          cases hm : lookupMT q1 lhs.nid with
          | none => exact ⟨hP1, by simp⟩
          | some lTyp =>
            dsimp only
            by_cases has : (n.id0.key == KeyXBinaryAs) = true
            · rw [if_pos has]
              cases hrt : n.rhs with
              | none => exact ⟨hP1, by simp⟩
              | some rhsT =>
                dsimp only
                have h2 := hType q1 rhsT 0
                rcases hy : tcheckTypeExpr fuel q1 rhsT 0 with ⟨q2, e2⟩
                rw [hy] at h2
                cases e2 with
                | some e3 => exact ⟨hP1.trans ((h2.1).mono (rhs_nids_sub hrt)), h2.2⟩
                | none =>
                  dsimp only
                  have hP2 : Pres q q2 (nodeNids n) := hP1.trans ((h2.1).mono (rhs_nids_sub hrt))
                  split
                  · exact ⟨hP2.trans (pres_setMT _ _ _ _), by simp⟩
                  · exact ⟨hP2, by simp⟩
            · rw [if_neg has]
              cases hrr : n.rhs with
              | none => exact ⟨hP1, by simp⟩
              | some rhs =>
                dsimp only
                have h2 := hExpr q1 rhs d
                rcases hy : tcheckExpr fuel q1 rhs d with ⟨q2, e2⟩
                rw [hy] at h2
                cases e2 with
                | some e3 => exact ⟨hP1.trans ((h2.1).mono (rhs_nids_sub hrr)), h2.2⟩
                | none =>
                  dsimp only
                  have hP2 : Pres q q2 (nodeNids n) := hP1.trans ((h2.1).mono (rhs_nids_sub hrr))
                  cases hm2 : lookupMT q2 rhs.nid with
                  | none => exact ⟨hP2, by simp⟩
                  | some rTyp =>
                    dsimp only
                    cases hs1 : binOpCategorySel n.id0.key lTyp rTyp with
                    | some e => exact ⟨hP2, fun hc => catSel_ne_dup hs1 (Option.some.inj hc)⟩
                    | none =>
                      dsimp only
                      cases hs2 : binOpCompatSel n.id0.key lTyp rTyp with
                      | some e =>
                        exact ⟨hP2, fun hc => compatSel_ne_dup hs2 (Option.some.inj hc)⟩
                      | none =>
                        dsimp only
                        cases hcl : lookupCV q2 lhs.nid with
                        | none =>
                          dsimp only
                          exact ⟨hP2.trans (pres_setMT _ _ _ _), by simp⟩
                        | some l =>
                          cases hcr : lookupCV q2 rhs.nid with
                          | none =>
                            dsimp only
                            exact ⟨hP2.trans (pres_setMT _ _ _ _), by simp⟩
                          | some r =>
                            dsimp only
                            rcases hf : setConstValueBinaryOp q2 n l r with ⟨q3, e3⟩
                            have hPF := presFold q2 n l r (nodeNids n) hf
                            cases e3 with
                            | some e4 => exact ⟨hP2.trans hPF.1, hPF.2⟩
                            | none =>
                              dsimp only
                              exact ⟨(hP2.trans hPF.1).trans (pres_setMT _ _ _ _), by simp⟩
    -- tcheckTypeExpr
    · intro q n d
      simp only [tcheckTypeExpr]
      split
      · exact ⟨Pres.refl _ _, by simp⟩
      · by_cases h0 : (n.id0.key == 0) = true
        · rw [if_pos h0]
          by_cases hnum : n.id1.isNumTypeTok = true
          · rw [if_pos hnum]
            have h1 := hBound q n.lhs
            rcases hx : tcheckBound fuel q n.lhs with ⟨q1, e⟩
            rw [hx] at h1
            cases e with
            | some e1 => exact ⟨(h1.1).mono (lhsOpt_nids_sub n), h1.2⟩
            | none =>
              dsimp only
              have hP1 : Pres q q1 (nodeNids n) := (h1.1).mono (lhsOpt_nids_sub n)
              have h2 := hBound q1 n.mhs
              rcases hy : tcheckBound fuel q1 n.mhs with ⟨q2, e2⟩
              rw [hy] at h2
              cases e2 with
              | some e3 => exact ⟨hP1.trans ((h2.1).mono (mhsOpt_nids_sub n)), h2.2⟩
              | none =>
                exact ⟨(hP1.trans ((h2.1).mono (mhsOpt_nids_sub n))).trans
                  (pres_setTypeChecked _ (nid_mem_nodeNids n)), by simp⟩
          · rw [if_neg hnum]
            split
            · exact ⟨pres_setTypeChecked _ (nid_mem_nodeNids n), by simp⟩
            · exact ⟨Pres.refl _ _, by simp⟩
        · rw [if_neg h0]
          by_cases hptr : (n.id0.key == KeyPtr) = true
          · rw [if_pos hptr]
            cases hri : n.rhs with
            | none => exact ⟨Pres.refl _ _, by simp⟩
            | some inner =>
              dsimp only
              have h1 := hType q inner (d+1)
              rcases hx : tcheckTypeExpr fuel q inner (d+1) with ⟨q1, e⟩
              rw [hx] at h1
              cases e with
              | some e1 => exact ⟨(h1.1).mono (rhs_nids_sub hri), h1.2⟩
              | none =>
                exact ⟨((h1.1).mono (rhs_nids_sub hri)).trans
                  (pres_setTypeChecked _ (nid_mem_nodeNids n)), by simp⟩
          · rw [if_neg hptr]
            by_cases hob : (n.id0.key == KeyOpenBracket) = true
            · rw [if_pos hob]
              cases hal : n.lhs with
              | none => exact ⟨Pres.refl _ _, by simp⟩
              | some aLen =>
                dsimp only
                have h1 := hExpr q aLen 0
                rcases hx : tcheckExpr fuel q aLen 0 with ⟨q1, e⟩
                rw [hx] at h1
                cases e with
                | some e1 => exact ⟨(h1.1).mono (lhs_nids_sub hal), h1.2⟩
                | none =>
                  dsimp only
                  have hP1 : Pres q q1 (nodeNids n) := (h1.1).mono (lhs_nids_sub hal)
                  split
                  · exact ⟨hP1, by simp⟩
                  · cases hri : n.rhs with
                    | none => exact ⟨hP1, by simp⟩
                    | some inner =>
                      dsimp only
                      have h2 := hType q1 inner (d+1)
                      rcases hy : tcheckTypeExpr fuel q1 inner (d+1) with ⟨q2, e2⟩
                      rw [hy] at h2
                      cases e2 with
                      | some e3 => exact ⟨hP1.trans ((h2.1).mono (rhs_nids_sub hri)), h2.2⟩
                      | none =>
                        exact ⟨(hP1.trans ((h2.1).mono (rhs_nids_sub hri))).trans
                          (pres_setTypeChecked _ (nid_mem_nodeNids n)), by simp⟩
            · rw [if_neg hob]
              exact ⟨Pres.refl _ _, by simp⟩
    -- tcheckBound
    · intro q b
      cases b with
      | none => exact ⟨Pres.refl _ _, by simp [tcheckBound]⟩
      | some b0 =>
        simp only [tcheckBound]
        have h1 := hExpr q b0 0
        rcases hx : tcheckExpr fuel q b0 0 with ⟨q1, e⟩
        rw [hx] at h1
        cases e with
        | some e1 => exact ⟨h1.1, h1.2⟩
        | none =>
          dsimp only
          split
          · exact ⟨h1.1, by simp⟩
          · exact ⟨h1.1, by simp⟩
    -- tcheckArg
    · intro q n d
      simp only [tcheckArg]
      cases hrhs : n.rhs with
      | none => exact ⟨Pres.refl _ _, by simp⟩
      | some v =>
        dsimp only
        have h1 := hExpr q v d
        rcases hx : tcheckExpr fuel q v d with ⟨q1, e⟩
        rw [hx] at h1
        cases e with
        | some e1 => exact ⟨(h1.1).mono (rhs_nids_sub hrhs), h1.2⟩
        | none =>
          exact ⟨((h1.1).mono (rhs_nids_sub hrhs)).trans
            (pres_setTypeChecked _ (nid_mem_nodeNids n)), by simp⟩
    -- tcheckArgList
    · intro q ns d
      cases ns with
      | nil => exact ⟨Pres.refl _ _, by simp [tcheckArgList]⟩
      | cons o t =>
        simp only [tcheckArgList]
        have h1 := hArg q o d
        rcases hx : tcheckArg fuel q o d with ⟨q1, e⟩
        rw [hx] at h1
        cases e with
        | some e1 => exact ⟨(h1.1).mono (nidsList_head_sub o t), h1.2⟩
        | none =>
          dsimp only
          have h2 := hArgL q1 t d
          rcases hy : tcheckArgList fuel q1 t d with ⟨q2, e2⟩
          rw [hy] at h2
          exact ⟨((h1.1).mono (nidsList_head_sub o t)).trans
            ((h2.1).mono (nidsList_tail_sub o t)), h2.2⟩
    -- tcheckAssert
    · intro q n
      simp only [tcheckAssert]
      cases hrhs : n.rhs with
      | none => exact ⟨Pres.refl _ _, by simp⟩
      | some cond =>
        dsimp only
        have h1 := hExpr q cond 0
        rcases hx : tcheckExpr fuel q cond 0 with ⟨q1, e⟩
        rw [hx] at h1
        cases e with
        | some e1 => exact ⟨(h1.1).mono (rhs_nids_sub hrhs), h1.2⟩
        | none =>
          dsimp only
          have hP1 : Pres q q1 (nodeNids n) := (h1.1).mono (rhs_nids_sub hrhs)
          cases hm : lookupMT q1 cond.nid with
          | none => exact ⟨hP1, by simp⟩
          | some mt =>
            dsimp only
            split
            · exact ⟨hP1, by simp⟩
            · have h2 := hAArgL q1 n.list0
              rcases hy : tcheckAssertArgList fuel q1 n.list0 with ⟨q2, e2⟩
              rw [hy] at h2
              exact ⟨hP1.trans ((h2.1).mono (list0_nids_sub n)), h2.2⟩
    -- tcheckAssertArgList
    · intro q ns
      cases ns with
      | nil => exact ⟨Pres.refl _ _, by simp [tcheckAssertArgList]⟩
      | cons o t =>
        simp only [tcheckAssertArgList]
        cases hrhs : o.rhs with
        | none => exact ⟨Pres.refl _ _, by simp⟩
        | some v =>
          dsimp only
          have h1 := hExpr q v 0
          rcases hx : tcheckExpr fuel q v 0 with ⟨q1, e⟩
          rw [hx] at h1
          cases e with
          | some e1 =>
            exact ⟨(h1.1).mono
              (fun x hx0 => nidsList_head_sub o t x (rhs_nids_sub hrhs x hx0)), h1.2⟩
          | none =>
            dsimp only
            have hP1 : Pres q (setTypeChecked q1 o.nid) (nidsList (o :: t)) :=
              ((h1.1).mono
                  (fun x hx0 => nidsList_head_sub o t x (rhs_nids_sub hrhs x hx0))).trans
                (pres_setTypeChecked _ (nidsList_head_sub o t o.nid (nid_mem_nodeNids o)))
            have h2 := hAArgL (setTypeChecked q1 o.nid) t
            rcases hy : tcheckAssertArgList fuel (setTypeChecked q1 o.nid) t with ⟨q2, e2⟩
            rw [hy] at h2
            exact ⟨hP1.trans ((h2.1).mono (nidsList_tail_sub o t)), h2.2⟩
    -- tcheckAssertNodeList
    · intro q ns
      cases ns with
      | nil => exact ⟨Pres.refl _ _, by simp [tcheckAssertNodeList]⟩
      | cons o t =>
        simp only [tcheckAssertNodeList]
        have h1 := hAssert q o
        rcases hx : tcheckAssert fuel q o with ⟨q1, e⟩
        rw [hx] at h1
        cases e with
        | some e1 => exact ⟨(h1.1).mono (nidsList_head_sub o t), h1.2⟩
        | none =>
          dsimp only
          have hP1 : Pres q (setTypeChecked q1 o.nid) (nidsList (o :: t)) :=
            ((h1.1).mono (nidsList_head_sub o t)).trans
              (pres_setTypeChecked _ (nidsList_head_sub o t o.nid (nid_mem_nodeNids o)))
          have h2 := hANodeL (setTypeChecked q1 o.nid) t
          rcases hy : tcheckAssertNodeList fuel (setTypeChecked q1 o.nid) t with ⟨q2, e2⟩
          rw [hy] at h2
          exact ⟨hP1.trans ((h2.1).mono (nidsList_tail_sub o t)), h2.2⟩
    -- tcheckAssign
    · intro q n
      simp only [tcheckAssign]
      cases hlhs : n.lhs with
      | none =>
        cases hrhs : n.rhs with
        | none => exact ⟨Pres.refl _ _, by simp⟩
        | some rhs => exact ⟨Pres.refl _ _, by simp⟩
      | some lhs =>
        cases hrhs : n.rhs with
        | none => exact ⟨Pres.refl _ _, by simp⟩
        | some rhs =>
          dsimp only
          have h1 := hExpr q lhs 0
          rcases hx : tcheckExpr fuel q lhs 0 with ⟨q1, e⟩
          rw [hx] at h1
          cases e with
          | some e1 => exact ⟨(h1.1).mono (lhs_nids_sub hlhs), h1.2⟩
          | none =>
            dsimp only
            have hP1 : Pres q q1 (nodeNids n) := (h1.1).mono (lhs_nids_sub hlhs)
            have h2 := hExpr q1 rhs 0
            rcases hy : tcheckExpr fuel q1 rhs 0 with ⟨q2, e2⟩
            rw [hy] at h2
            cases e2 with
            | some e3 => exact ⟨hP1.trans ((h2.1).mono (rhs_nids_sub hrhs)), h2.2⟩
            | none =>
              dsimp only
              have hP2 : Pres q q2 (nodeNids n) := hP1.trans ((h2.1).mono (rhs_nids_sub hrhs))
              repeat' split
              all_goals exact ⟨hP2, by simp⟩
    -- tcheckStatement
    · intro q n
      simp only [tcheckStatement]
      cases hk : n.kind with
      | KAssert =>
        dsimp only
        have h1 := hAssert q n
        rcases hx : tcheckAssert fuel q n with ⟨q1, e⟩
        rw [hx] at h1
        cases e with
        | some e1 => exact ⟨h1.1, h1.2⟩
        | none =>
          exact ⟨(h1.1).trans (pres_setTypeChecked _ (nid_mem_nodeNids n)), by simp⟩
      | KAssign =>
        dsimp only
        have h1 := hAssign q n
        rcases hx : tcheckAssign fuel q n with ⟨q1, e⟩
        rw [hx] at h1
        cases e with
        | some e1 => exact ⟨h1.1, h1.2⟩
        | none =>
          exact ⟨(h1.1).trans (pres_setTypeChecked _ (nid_mem_nodeNids n)), by simp⟩
      | KIf =>
        dsimp only
        have h1 := hIf q n
        rcases hx : tcheckIfChain fuel q n with ⟨q1, e⟩
        rw [hx] at h1
        cases e with
        | some e1 => exact ⟨h1.1, h1.2⟩
        | none => exact ⟨(h1.1).trans (hMark q1 n), by simp⟩
      | KJump =>
        dsimp only
        split
        · exact ⟨Pres.refl _ _, by simp⟩
        · rename_i w hw
          have hA : Pres q (if (n.id0.key == KeyBreak) = true then setHasBreak q w.nid
              else setHasContinue q w.nid) (nodeNids n) := by
            split
            · exact pres_setHasBreak _ _ _
            · exact pres_setHasContinue _ _ _
          exact ⟨(hA.trans (pres_setJumpTarg _ _ _ _)).trans
            (pres_setTypeChecked _ (nid_mem_nodeNids n)), by simp⟩
      | KReturn =>
        dsimp only
        cases hv : n.lhs with
        | none => exact ⟨pres_setTypeChecked _ (nid_mem_nodeNids n), by simp⟩
        | some v =>
          dsimp only
          have h1 := hExpr q v 0
          rcases hx : tcheckExpr fuel q v 0 with ⟨q1, e⟩
          rw [hx] at h1
          cases e with
          | some e1 => exact ⟨(h1.1).mono (lhs_nids_sub hv), h1.2⟩
          | none =>
            exact ⟨((h1.1).mono (lhs_nids_sub hv)).trans
              (pres_setTypeChecked _ (nid_mem_nodeNids n)), by simp⟩
      | KVar =>
        dsimp only
        cases hxt : n.lhs with
        | none => exact ⟨Pres.refl _ _, by simp⟩
        | some xt =>
          dsimp only
          split
          · exact ⟨Pres.refl _ _, by simp⟩
          · cases hv : n.rhs with
            | none => exact ⟨pres_setTypeChecked _ (nid_mem_nodeNids n), by simp⟩
            | some v =>
              dsimp only
              have h1 := hExpr q v 0
              rcases hx : tcheckExpr fuel q v 0 with ⟨q1, e⟩
              rw [hx] at h1
              cases e with
              | some e1 => exact ⟨(h1.1).mono (rhs_nids_sub hv), h1.2⟩
              | none =>
                exact ⟨((h1.1).mono (rhs_nids_sub hv)).trans
                  (pres_setTypeChecked _ (nid_mem_nodeNids n)), by simp⟩
      | KWhile =>
        dsimp only
        cases hc : n.lhs with
        | none => exact ⟨Pres.refl _ _, by simp⟩
        | some cond =>
          dsimp only
          have h1 := hExpr q cond 0
          rcases hx : tcheckExpr fuel q cond 0 with ⟨q1, e⟩
          rw [hx] at h1
          cases e with
          | some e1 => exact ⟨(h1.1).mono (lhs_nids_sub hc), h1.2⟩
          | none =>
            dsimp only
            have hP1 : Pres q q1 (nodeNids n) := (h1.1).mono (lhs_nids_sub hc)
            cases hm : lookupMT q1 cond.nid with
            | none => exact ⟨hP1, by simp⟩
            | some mt =>
              dsimp only
              split
              · exact ⟨hP1, by simp⟩
              · have h2 := hANodeL q1 n.list0
                rcases hy : tcheckAssertNodeList fuel q1 n.list0 with ⟨q2, e2⟩
                rw [hy] at h2
                cases e2 with
                | some e3 => exact ⟨hP1.trans ((h2.1).mono (list0_nids_sub n)), h2.2⟩
                | none =>
                  dsimp only
                  have hP2 : Pres q q2 (nodeNids n) :=
                    hP1.trans ((h2.1).mono (list0_nids_sub n))
                  have h3 := hStmtL { q2 with jumpTargets := q2.jumpTargets ++ [n] } n.list1
                  rcases hz : tcheckStatementList fuel
                      { q2 with jumpTargets := q2.jumpTargets ++ [n] } n.list1 with ⟨q4, e4⟩
                  rw [hz] at h3
                  have hjt : q4.jumpTargets = q2.jumpTargets ++ [n] := h3.1.1
                  have hP5 : Pres q { q4 with jumpTargets := q4.jumpTargets.dropLast }
                      (nodeNids n) := by
                    refine ⟨?_, ?_, ?_⟩
                    · show q4.jumpTargets.dropLast = q.jumpTargets
                      rw [hjt, List.dropLast_concat]
                      exact hP2.1
                    · show q4.localVars = q.localVars
                      exact (h3.1.2.1).trans hP2.2.1
                    · intro m hm2
                      have hf := h3.1.2.2 m (fun hmem => hm2 (list1_nids_sub n m hmem))
                      exact hf.trans (hP2.2.2 m hm2)
                  cases e4 with
                  | some e5 => exact ⟨hP5, h3.2⟩
                  | none =>
                    exact ⟨hP5.trans (pres_setTypeChecked _ (nid_mem_nodeNids n)), by simp⟩
      | KInvalid => exact ⟨Pres.refl _ _, by simp⟩
      | KArg => exact ⟨Pres.refl _ _, by simp⟩
      | KExpr => exact ⟨Pres.refl _ _, by simp⟩
      | KField => exact ⟨Pres.refl _ _, by simp⟩
      | KFile => exact ⟨Pres.refl _ _, by simp⟩
      | KFunc => exact ⟨Pres.refl _ _, by simp⟩
      | KStruct => exact ⟨Pres.refl _ _, by simp⟩
      | KTypeExpr => exact ⟨Pres.refl _ _, by simp⟩
      | KUse => exact ⟨Pres.refl _ _, by simp⟩
    -- tcheckStatementList
    · intro q ns
      cases ns with
      | nil => exact ⟨Pres.refl _ _, by simp [tcheckStatementList]⟩
      | cons o t =>
        simp only [tcheckStatementList]
        have h1 := hStmt q o
        rcases hx : tcheckStatement fuel q o with ⟨q1, e⟩
        rw [hx] at h1
        cases e with
        | some e1 => exact ⟨(h1.1).mono (nidsList_head_sub o t), h1.2⟩
        | none =>
          dsimp only
          have h2 := hStmtL q1 t
          rcases hy : tcheckStatementList fuel q1 t with ⟨q2, e2⟩
          rw [hy] at h2
          exact ⟨((h1.1).mono (nidsList_head_sub o t)).trans
            ((h2.1).mono (nidsList_tail_sub o t)), h2.2⟩
    -- tcheckIfChain
    · intro q n
      simp only [tcheckIfChain]
      cases hc : n.lhs with
      | none => exact ⟨Pres.refl _ _, by simp⟩
      | some cond =>
        dsimp only
        have h1 := hExpr q cond 0
        rcases hx : tcheckExpr fuel q cond 0 with ⟨q1, e⟩
        rw [hx] at h1
        cases e with
        | some e1 => exact ⟨(h1.1).mono (lhs_nids_sub hc), h1.2⟩
        | none =>
          dsimp only
          have hP1 : Pres q q1 (nodeNids n) := (h1.1).mono (lhs_nids_sub hc)
          cases hm : lookupMT q1 cond.nid with
          | none => exact ⟨hP1, by simp⟩
          | some mt =>
            dsimp only
            split
            · exact ⟨hP1, by simp⟩
            · have h2 := hStmtL q1 n.list0
              rcases hy : tcheckStatementList fuel q1 n.list0 with ⟨q2, e2⟩
              rw [hy] at h2
              cases e2 with
              | some e3 => exact ⟨hP1.trans ((h2.1).mono (list0_nids_sub n)), h2.2⟩
              | none =>
                dsimp only
                have hP2 : Pres q q2 (nodeNids n) :=
                  hP1.trans ((h2.1).mono (list0_nids_sub n))
                have h3 := hStmtL q2 n.list1
                rcases hz : tcheckStatementList fuel q2 n.list1 with ⟨q3, e3⟩
                rw [hz] at h3
                cases e3 with
                | some e4 => exact ⟨hP2.trans ((h3.1).mono (list1_nids_sub n)), h3.2⟩
                | none =>
                  dsimp only
                  have hP3 : Pres q q3 (nodeNids n) :=
                    hP2.trans ((h3.1).mono (list1_nids_sub n))
                  cases hr : n.rhs with
                  | none => exact ⟨hP3, by simp⟩
                  | some elseif =>
                    dsimp only
                    have h4 := hIf q3 elseif
                    rcases hw : tcheckIfChain fuel q3 elseif with ⟨q4, e4⟩
                    rw [hw] at h4
                    exact ⟨hP3.trans ((h4.1).mono (rhs_nids_sub hr)), h4.2⟩
    -- markIfChain
    · intro q n
      simp only [markIfChain]
      cases hr : n.rhs with
      | none => exact pres_setTypeChecked _ (nid_mem_nodeNids n)
      | some elseif =>
        dsimp only
        exact (pres_setTypeChecked _ (nid_mem_nodeNids n)).trans
          ((hMark _ elseif).mono (rhs_nids_sub hr))

theorem lookup_none_of_not_mem_keys {α β : Type} [BEq α] [LawfulBEq α]
    (a : α) (l : List (α × β)) (h : a ∉ l.map Prod.fst) : List.lookup a l = none := by
  induction l with
  | nil => rfl
  | cons p t ih =>
    simp only [List.map_cons, List.mem_cons] at h
    push_neg at h
    rw [List.lookup_cons]
    have hne : (a == p.1) = false := by
      rw [beq_eq_false_iff_ne]
      exact h.1
    rw [hne]
    exact ih h.2

theorem lookup_append_left_none {α β : Type} [BEq α]
    (a : α) (l1 l2 : List (α × β)) (h : List.lookup a l1 = none) :
    List.lookup a (l1 ++ l2) = List.lookup a l2 := by
  induction l1 with
  | nil => rfl
  | cons p t ih =>
    rw [List.cons_append, List.lookup_cons]
    rw [List.lookup_cons] at h
    cases hb : (a == p.1) with
    | true => rw [hb] at h; exact absurd h (by simp)
    | false =>
      rw [hb] at h
      exact ih h

theorem varSeq_var {n : Node} (h : n.kind = .KVar) :
    varSeq n = [(n.id1, match n.lhs with | some xt => xt | none => deadNode)] := by
  cases n with
  | mk i k f a b l m r s t =>
    simp only [Node.kind] at h
    simp only [varSeq, Node.id1, Node.lhs, h, if_pos]

theorem varSeq_nonvar {n : Node} (h : ¬ n.kind = .KVar) :
    varSeq n = varSeqList n.list0 ++ varSeqList n.list1 := by
  cases n with
  | mk i k f a b l m r s t =>
    simp only [Node.kind] at h
    simp only [varSeq, Node.list0, Node.list1]
    rw [if_neg h]

/-- Freshness of a variable sequence with respect to the current
local-variable table: pairwise distinct names, none already registered. -/
def freshVars (q : CState) (vs : List (TokID × Node)) : Prop :=
  (vs.map Prod.fst).Nodup ∧ ∀ p ∈ vs, lookupLV q p.1 = none

theorem freshVars_append_left {q : CState} {v1 v2 : List (TokID × Node)}
    (h : freshVars q (v1 ++ v2)) : freshVars q v1 := by
  refine ⟨?_, fun p hp => h.2 p (List.mem_append_left _ hp)⟩
  have := h.1
  rw [List.map_append] at this
  exact (List.nodup_append.mp this).1

theorem freshVars_after_reg {q q1 : CState} {v1 v2 : List (TokID × Node)}
    (h : freshVars q (v1 ++ v2)) (hq1 : q1.localVars = q.localVars ++ v1) :
    freshVars q1 v2 := by
  have hnd := h.1
  rw [List.map_append] at hnd
  obtain ⟨hn1, hn2, hd⟩ := List.nodup_append.mp hnd
  refine ⟨hn2, fun p hp => ?_⟩
  show List.lookup p.1 q1.localVars = none
  rw [hq1]
  rw [lookup_append_left_none _ _ _ (h.2 p (List.mem_append_right _ hp))]
  apply lookup_none_of_not_mem_keys
  intro hmem
  exact hd hmem (List.mem_map_of_mem _ hp)

theorem varsMaster : ∀ fuel : Nat,
    (∀ q n, (tcheckVars fuel q n).1.jumpTargets = q.jumpTargets ∧
      ((tcheckVars fuel q n).2 = none →
        (tcheckVars fuel q n).1.localVars = q.localVars ++ varSeq n) ∧
      (freshVars q (varSeq n) → (tcheckVars fuel q n).2 ≠ some Err.duplicateVar)) ∧
    (∀ q ns, (tcheckVarsList fuel q ns).1.jumpTargets = q.jumpTargets ∧
      ((tcheckVarsList fuel q ns).2 = none →
        (tcheckVarsList fuel q ns).1.localVars = q.localVars ++ varSeqList ns) ∧
      (freshVars q (varSeqList ns) →
        (tcheckVarsList fuel q ns).2 ≠ some Err.duplicateVar)) := by
  intro fuel
  induction fuel with
  | zero =>
    constructor
    · intro q n
      refine ⟨rfl, ?_, ?_⟩
      · intro h
        exact absurd h (by simp [tcheckVars])
      · intro _
        simp [tcheckVars]
    · intro q ns
      refine ⟨rfl, ?_, ?_⟩
      · intro h
        exact absurd h (by simp [tcheckVarsList])
      · intro _
        simp [tcheckVarsList]
  | succ fuel ih =>
    obtain ⟨ihV, ihL⟩ := ih
    constructor
    · intro q n
      simp only [tcheckVars]
      by_cases hk : n.kind = .KVar
      · rw [if_pos hk]
        by_cases hdup : (lookupLV q n.id1).isSome = true
        · rw [if_pos hdup]
          refine ⟨rfl, ?_, ?_⟩
          · intro h
            exact absurd h (by simp)
          · intro hf
            exfalso
            have hmem : (n.id1, match n.lhs with | some xt => xt | none => deadNode) ∈
                varSeq n := by
              rw [varSeq_var hk]
              exact List.mem_singleton.mpr rfl
            have hnone := hf.2 _ hmem
            rw [hnone] at hdup
            exact absurd hdup (by simp)
        · rw [if_neg hdup]
          cases hlhs : n.lhs with
          | none =>
            refine ⟨rfl, ?_, ?_⟩
            · intro h
              exact absurd h (by simp)
            · intro _
              simp
          | some xt =>
            dsimp only
            have hT := (((((((presMaster fuel).2).2).2).2).2).1) q xt 0
            rcases hx : tcheckTypeExpr fuel q xt 0 with ⟨q1, e⟩
            rw [hx] at hT
            cases e with
            | some e1 =>
              refine ⟨hT.1.1, ?_, ?_⟩
              · intro h
                exact absurd h (by simp)
              · intro _
                exact hT.2
            | none =>
              dsimp only
              refine ⟨?_, ?_, ?_⟩
              · exact hT.1.1
              · intro _
                show (setLV q1 n.id1 xt).localVars = q.localVars ++ varSeq n
                rw [varSeq_var hk, hlhs]
                show q1.localVars ++ [(n.id1, xt)] = q.localVars ++ [(n.id1, xt)]
                rw [hT.1.2.1]
              · intro _
                simp
      · rw [if_neg hk]
        have h1 := ihL q n.list0
        rcases hx : tcheckVarsList fuel q n.list0 with ⟨q1, e⟩
        rw [hx] at h1
        cases e with
        | some e1 =>
          refine ⟨h1.1, ?_, ?_⟩
          · intro h
            exact absurd h (by simp)
          · intro hf hc
            have hf0 : freshVars q (varSeqList n.list0 ++ varSeqList n.list1) := by
              rw [varSeq_nonvar hk] at hf
              exact hf
            exact h1.2.2 (freshVars_append_left hf0) hc
        | none =>
          dsimp only
          have hreg1 := h1.2.1 rfl
          have h2 := ihL q1 n.list1
          rcases hy : tcheckVarsList fuel q1 n.list1 with ⟨q2, e2⟩
          rw [hy] at h2
          refine ⟨h2.1.trans h1.1, ?_, ?_⟩
          · intro he
            have hreg2 := h2.2.1 he
            show q2.localVars = q.localVars ++ varSeq n
            rw [varSeq_nonvar hk, hreg2, hreg1, List.append_assoc]
          · intro hf hc
            have hf0 : freshVars q (varSeqList n.list0 ++ varSeqList n.list1) := by
              rw [varSeq_nonvar hk] at hf
              exact hf
            exact h2.2.2 (freshVars_after_reg hf0 hreg1) hc
    · intro q ns
      cases ns with
      | nil =>
        refine ⟨rfl, ?_, ?_⟩
        · intro _
          show q.localVars = q.localVars ++ varSeqList []
          simp [varSeqList]
        · intro _
          simp [tcheckVarsList]
      | cons o t =>
        simp only [tcheckVarsList]
        have h1 := ihV q o
        rcases hx : tcheckVars fuel q o with ⟨q1, e⟩
        rw [hx] at h1
        cases e with
        | some e1 =>
          refine ⟨h1.1, ?_, ?_⟩
          · intro h
            exact absurd h (by simp)
          · intro hf hc
            have hf0 : freshVars q (varSeq o ++ varSeqList t) := hf
            exact h1.2.2 (freshVars_append_left hf0) hc
        | none =>
          dsimp only
          have hreg1 := h1.2.1 rfl
          have h2 := ihL q1 t
          rcases hy : tcheckVarsList fuel q1 t with ⟨q2, e2⟩
          rw [hy] at h2
          refine ⟨h2.1.trans h1.1, ?_, ?_⟩
          · intro he
            have hreg2 := h2.2.1 he
            show q2.localVars = q.localVars ++ varSeqList (o :: t)
            rw [hreg2, hreg1, List.append_assoc]
            rfl
          · intro hf hc
            have hf0 : freshVars q (varSeq o ++ varSeqList t) := hf
            exact h2.2.2 (freshVars_after_reg hf0 hreg1) hc

theorem chain_mem : ∀ n : Node, ∀ m ∈ chainNids n, m ∈ nodeNids n := by
  apply chainNids.induct (fun n => ∀ m ∈ chainNids n, m ∈ nodeNids n)
    (fun o => ∀ m ∈ chainNidsOpt o, m ∈ nidsOpt o)
  · intro i k f a b l mm r s t ih m hm
    simp only [chainNids, List.mem_cons] at hm
    rcases hm with h1 | h2
    · subst h1
      simp [nodeNids]
    · have hr := ih m h2
      simp only [nodeNids, List.mem_cons, List.mem_append]
      tauto
  · intro m hm
    simp [chainNidsOpt] at hm
  · intro xt ih m hm
    exact ih m hm

theorem chain_mem_opt : ∀ o : Option Node, ∀ m ∈ chainNidsOpt o, m ∈ nidsOpt o := by
  intro o
  cases o with
  | none => intro m hm; simp [chainNidsOpt] at hm
  | some e => exact chain_mem e

theorem markMono : ∀ fuel q n m, m ∈ q.typeChecked → m ∈ (markIfChain fuel q n).typeChecked := by
  intro fuel
  induction fuel with
  | zero => intro q n m hm; exact hm
  | succ fuel ih =>
    intro q n m hm
    simp only [markIfChain]
    cases hr : n.rhs with
    | none =>
      show m ∈ n.nid :: q.typeChecked
      exact List.mem_cons_of_mem _ hm
    | some elseif =>
      exact ih _ elseif m (List.mem_cons_of_mem _ hm)

theorem nodup_parts {i : Nat} {A B C D E : List Nat}
    (h : (i :: (A ++ B ++ C ++ D ++ E)).Nodup) :
    i ∉ A ∧ i ∉ C ∧ i ∉ D ∧ i ∉ E ∧ C.Nodup ∧
      ∀ m ∈ C, m ∉ A ∧ m ∉ D ∧ m ∉ E := by
  obtain ⟨hi, hL⟩ := List.nodup_cons.mp h
  obtain ⟨h4, hE, dE⟩ := List.nodup_append.mp hL
  obtain ⟨h3, hD, dD⟩ := List.nodup_append.mp h4
  obtain ⟨h2, hC, dC⟩ := List.nodup_append.mp h3
  have hiA : i ∉ A := fun hx => hi (by simp [List.mem_append, hx])
  have hiC : i ∉ C := fun hx => hi (by simp [List.mem_append, hx])
  have hiD : i ∉ D := fun hx => hi (by simp [List.mem_append, hx])
  have hiE : i ∉ E := fun hx => hi (by simp [List.mem_append, hx])
  refine ⟨hiA, hiC, hiD, hiE, hC, fun m hmC => ⟨?_, ?_, ?_⟩⟩
  · intro hmA
    exact dC (by simp [List.mem_append, hmA]) hmC
  · intro hmD
    exact dD (by simp [List.mem_append, hmC]) hmD
  · intro hmE
    exact dE (by simp [List.mem_append, hmC]) hmE

theorem presExpr (fuel : Nat) (q : CState) (n : Node) (d : Nat) :
    PE q (tcheckExpr fuel q n d) (nodeNids n) := (presMaster fuel).1 q n d

theorem presStmtT (fuel : Nat) (q : CState) (n : Node) :
    PE q (tcheckStatement fuel q n) (nodeNids n) :=
  (presMaster fuel).2.2.2.2.2.2.2.2.2.2.2.2.2.1 q n

theorem presStmtL (fuel : Nat) (q : CState) (ns : List Node) :
    PE q (tcheckStatementList fuel q ns) (nidsList ns) :=
  (presMaster fuel).2.2.2.2.2.2.2.2.2.2.2.2.2.2.1 q ns

theorem presIfChainT (fuel : Nat) (q : CState) (n : Node) :
    PE q (tcheckIfChain fuel q n) (nodeNids n) :=
  (presMaster fuel).2.2.2.2.2.2.2.2.2.2.2.2.2.2.2.1 q n

theorem ifChainFrame : ∀ fuel q n, (nodeNids n).Nodup →
    ∀ m ∈ chainNids n,
      (m ∈ ((tcheckIfChain fuel q n).1).typeChecked ↔ m ∈ q.typeChecked) := by
  intro fuel
  induction fuel with
  | zero =>
    intro q n _ m _
    exact Iff.rfl
  | succ fuel ih =>
    intro q n hnd m hm
    cases n with
    | mk i k f a b l mm r s t =>
      obtain ⟨hiA, hiC, hiD, hiE, hCnd, hCdis⟩ := nodup_parts (by simpa [nodeNids] using hnd)
      simp only [tcheckIfChain, Node.lhs, Node.list0, Node.list1, Node.rhs]
      simp only [chainNids, List.mem_cons, Node.nid] at hm
      have hmA : m ∉ nidsOpt l := by
        rcases hm with h1 | h2
        · subst h1; exact hiA
        · exact (hCdis m (chain_mem_opt r m h2)).1
      have hmD : m ∉ nidsList s := by
        rcases hm with h1 | h2
        · subst h1; exact hiD
        · exact (hCdis m (chain_mem_opt r m h2)).2.1
      have hmE : m ∉ nidsList t := by
        rcases hm with h1 | h2
        · subst h1; exact hiE
        · exact (hCdis m (chain_mem_opt r m h2)).2.2
      cases l with
      | none => exact Iff.rfl
      | some cond =>
        dsimp only
        have hF1 := (presExpr fuel q cond 0).1.2.2 m hmA
        rcases hx : tcheckExpr fuel q cond 0 with ⟨q1, e⟩
        rw [hx] at hF1
        cases e with
        | some e1 => exact hF1
        | none =>
          dsimp only
          cases hmt : lookupMT q1 cond.nid with
          | none => exact hF1
          | some mt =>
            dsimp only
            split
            · exact hF1
            · have hF2 := (presStmtL fuel q1 s).1.2.2 m hmD
              rcases hy : tcheckStatementList fuel q1 s with ⟨q2, e2⟩
              rw [hy] at hF2
              cases e2 with
              | some e3 => exact hF2.trans hF1
              | none =>
                dsimp only
                have hF3 := (presStmtL fuel q2 t).1.2.2 m hmE
                rcases hz : tcheckStatementList fuel q2 t with ⟨q3, e3⟩
                rw [hz] at hF3
                cases e3 with
                | some e4 => exact (hF3.trans hF2).trans hF1
                | none =>
                  dsimp only
                  cases r with
                  | none => exact (hF3.trans hF2).trans hF1
                  | some elseif =>
                    dsimp only
                    rcases hm with h1 | h2
                    · subst h1
                      have hF4 := (presIfChainT fuel q3 elseif).1.2.2 m hiC
                      exact ((hF4.trans hF3).trans hF2).trans hF1
                    · have hF4 := ih q3 elseif hCnd m h2
                      exact ((hF4.trans hF3).trans hF2).trans hF1

theorem markAllChain : ∀ fuel q n, (tcheckIfChain fuel q n).2 = none →
    ∀ q1, ∀ m ∈ chainNids n, m ∈ (markIfChain fuel q1 n).typeChecked := by
  intro fuel
  induction fuel with
  | zero =>
    intro q n h
    exact absurd h (by simp [tcheckIfChain])
  | succ fuel ih =>
    intro q n hsucc q1 m hm
    cases n with
    | mk i k f a b l mm r s t =>
      simp only [chainNids, List.mem_cons, Node.nid] at hm
      simp only [markIfChain, Node.rhs, Node.nid]
      simp only [tcheckIfChain, Node.lhs, Node.list0, Node.list1, Node.rhs] at hsucc
      cases l with
      | none => simp at hsucc
      | some cond =>
        dsimp only at hsucc
        rcases hx : tcheckExpr fuel q cond 0 with ⟨qa, e⟩
        rw [hx] at hsucc
        cases e with
        | some e1 => simp at hsucc
        | none =>
          dsimp only at hsucc
          cases hmt : lookupMT qa cond.nid with
          | none =>
            rw [hmt] at hsucc
            simp at hsucc
          | some mt =>
            rw [hmt] at hsucc
            dsimp only at hsucc
            by_cases htq : ¬ teq mt TypeExprBool = true
            · rw [if_pos htq] at hsucc
              simp at hsucc
            · rw [if_neg htq] at hsucc
              rcases hy : tcheckStatementList fuel qa s with ⟨qb, e2⟩
              rw [hy] at hsucc
              cases e2 with
              | some e3 => simp at hsucc
              | none =>
                dsimp only at hsucc
                rcases hz : tcheckStatementList fuel qb t with ⟨qc, e3⟩
                rw [hz] at hsucc
                cases e3 with
                | some e4 => simp at hsucc
                | none =>
                  dsimp only at hsucc
                  cases r with
                  | none =>
                    rcases hm with h1 | h2
                    · subst h1
                      exact List.mem_cons_self _ _
                    · simp [chainNidsOpt] at h2
                  | some elseif =>
                    dsimp only at hsucc ⊢
                    rcases hm with h1 | h2
                    · subst h1
                      exact markMono fuel (setTypeChecked q1 m) elseif m
                        (List.mem_cons_self _ _)
                    · exact ih qc elseif hsucc (setTypeChecked q1 i) m h2

theorem presANodeL (fuel : Nat) (q : CState) (ns : List Node) :
    PE q (tcheckAssertNodeList fuel q ns) (nidsList ns) :=
  (presMaster fuel).2.2.2.2.2.2.2.2.2.2.2.1 q ns

theorem find_append (p : Node → Bool) (l1 l2 : List Node) :
    (l1 ++ l2).find? p =
      match l1.find? p with
      | some r => some r
      | none => l2.find? p := by
  induction l1 with
  | nil => rfl
  | cons a t ih =>
    cases h : p a with
    | true => simp [List.find?, h]
    | false => simp [List.find?, h, ih]

theorem searchJumpTargets_eq (l : List Node) (id : TokID) :
    searchJumpTargets l id = l.reverse.find? (fun w => w.id1 == id) := by
  induction l with
  | nil => rfl
  | cons w t ih =>
    simp only [searchJumpTargets, List.reverse_cons, find_append, ih]
    cases t.reverse.find? (fun x => x.id1 == id) with
    | some r => rfl
    | none =>
      cases hw : w.id1 == id with
      | true => simp [List.find?, hw]
      | false => simp [List.find?, hw]

/-! Concrete tokens, nodes and states used as test inputs below. -/

/-- The empty checker state. -/
def CState0 : CState := {}

def minusTok : TokID := ⟨KeyXUnaryMinus, FlagsUnaryOp, false, false, false, "-"⟩

def plusTok : TokID := ⟨KeyXBinaryPlus, FlagsBinaryOp, false, false, false, "+"⟩

def slashTok : TokID := ⟨KeyXBinarySlash, FlagsBinaryOp, false, false, false, "/"⟩

def shiftLTok : TokID := ⟨KeyXBinaryShiftL, FlagsBinaryOp, false, false, false, "<<"⟩

def trueTok : TokID := ⟨KeyTrue, 0, false, false, false, "true"⟩

def boolTok : TokID := ⟨KeyBool, 0, false, false, false, "bool"⟩

def numLitTok (s : String) : TokID := ⟨0, 0, false, true, false, s⟩

/-- A numeric-literal leaf expression. -/
def litNode (i : Nat) (s : String) : Node :=
  .mk i .KExpr 0 TokID.zero (numLitTok s) none none none [] []

/-- The expression `-7`. -/
def negSevenExpr : Node :=
  .mk 2 .KExpr 0 minusTok TokID.zero none none (some (litNode 1 "7")) [] []

/-- The expression `(-7) / 2`. -/
def divSevenTwoExpr : Node :=
  .mk 4 .KExpr 0 slashTok TokID.zero (some negSevenExpr) none
    (some (litNode 3 "2")) [] []

/-- A `<<` binary expression node (operands irrelevant to the folding
step under test). -/
def shiftLNode : Node :=
  .mk 7 .KExpr 0 shiftLTok TokID.zero none none none [] []

/-- A chain of `k` unary-minus nodes around the literal `42`. -/
def deepNeg : Nat → Node
  | 0 => litNode 0 "42"
  | k + 1 => .mk (k + 1) .KExpr 0 minusTok TokID.zero none none
      (some (deepNeg k)) [] []

/-- The expression `42 + (- - ... - 42)` with 255 unary minuses: its
nesting depth exceeds `MaxExprDepth`, and its left operand is a literal
that the checker annotates before the right operand fails. -/
def c2expr : Node :=
  .mk 1000 .KExpr 0 plusTok TokID.zero (some (litNode 999 "42")) none
    (some (deepNeg 255)) [] []

/-- Claim C1 (amended): for a binary `/` expression whose operands both
carry constant values and whose divisor is nonzero, the folded constant is
the Euclidean quotient (`big.Int.Div`), whose remainder is non-negative —
not the quotient rounded toward zero. -/
theorem claimC1 (q : CState) (n : Node) (l r : Int)
    (hk : n.id0.key = KeyXBinarySlash) (hr : r ≠ 0) :
    setConstValueBinaryOp q n l r = (setCV q n.nid (Int.ediv l r), none) := by
  simp only [setConstValueBinaryOp, hk]
  rw [if_neg (by decide), if_neg (by decide), if_neg (by decide),
    if_pos (by decide), if_neg (by simpa using hr)]
  rfl

/-- Claim C1 witness: folding `-7 / 2` at the division node. -/
theorem claimC1_witness :
    setConstValueBinaryOp CState0 divSevenTwoExpr (-7) 2 =
      (setCV CState0 divSevenTwoExpr.nid (Int.ediv (-7) 2), none) :=
  claimC1 CState0 divSevenTwoExpr (-7) 2 rfl (by decide)

/-- Claim C1 counterexample: checking the expression `(-7) / 2` succeeds
and annotates the division node with constant `-4` — the Euclidean
quotient — whereas the quotient of `-7` by `2` rounded toward zero
(Go's truncated `Quo`, Lean's `Int.div`) is `-3`. -/
theorem claimC1_counterexample :
    (tcheckExpr 10 CState0 divSevenTwoExpr 0).2 = none ∧
    lookupCV (tcheckExpr 10 CState0 divSevenTwoExpr 0).1 4 = some (-4) ∧
    Int.div (-7) 2 = -3 ∧ ((-4 : Int) = -3 → False) :=
  ⟨rfl, rfl, rfl, by decide⟩

/-- The depth guard of `tcheckExpr`: a depth parameter beyond
`MaxExprDepth` fails immediately, leaving the state untouched. -/
theorem expr_depth_guard (fuel : Nat) (q : CState) (n : Node) (d : Nat)
    (h : d > MaxExprDepth) :
    tcheckExpr (fuel + 1) q n d = (q, some Err.tooDeep) := by
  simp only [tcheckExpr]
  rw [if_pos h]

/-- Checking a `deepNeg` chain that reaches past the depth limit fails
with `TooDeep` and leaves the state untouched (annotations are only
written on success, and failure propagates unchanged). -/
theorem deepNeg_tooDeep : ∀ k m q d, 255 < d + k →
    tcheckExpr (2 * k + m + 1) q (deepNeg k) d = (q, some Err.tooDeep) := by
  intro k
  induction k with
  | zero =>
    intro m q d h
    exact expr_depth_guard (2 * 0 + m) q (deepNeg 0) d (by simpa [MaxExprDepth] using h)
  | succ k ih =>
    intro m q d h
    by_cases hd : d > MaxExprDepth
    · exact expr_depth_guard (2 * (k + 1) + m) q (deepNeg (k + 1)) d hd
    · rw [show 2 * (k + 1) + m + 1 = 2 * k + m + 1 + 1 + 1 from by ring]
      simp only [deepNeg, tcheckExpr]
      rw [if_neg hd]
      dsimp only [Node.id0, Node.rhs, Node.nid]
      rw [if_neg (by decide), if_pos (by decide)]
      simp only [tcheckExprUnaryOp]
      dsimp only [Node.rhs]
      rw [ih m q (d + 1) (by omega)]

/-- The state after checking the literal left operand of `c2expr`. -/
def qLit : CState := (tcheckExpr 513 CState0 (litNode 999 "42") 1).1

theorem nodeDepth_deepNeg : ∀ k, nodeDepth (deepNeg k) = k + 1 := by
  intro k
  induction k with
  | zero => rfl
  | succ k ih =>
    simp only [deepNeg, nodeDepth, depthOpt, depthList, ih]
    omega

/-- Checking `c2expr` fails `TooDeep` but keeps the literal's annotations. -/
theorem c2expr_eval : tcheckExpr 515 CState0 c2expr 0 = (qLit, some Err.tooDeep) := by
  have hlit : tcheckExpr 513 CState0 (litNode 999 "42") (0 + 1) = (qLit, none) := rfl
  have hmt : lookupMT qLit 999 = some TypeExprIdeal := rfl
  have hdeep : tcheckExpr 513 qLit (deepNeg 255) (0 + 1) = (qLit, some Err.tooDeep) := by
    rw [show (513 : Nat) = 2 * 255 + 2 + 1 from rfl]
    exact deepNeg_tooDeep 255 2 qLit (0 + 1) (by omega)
  rw [show (515 : Nat) = 513 + 1 + 1 from rfl]
  generalize hF : (513 : Nat) = F at hlit hdeep ⊢
  simp only [c2expr, tcheckExpr]
  rw [if_neg (by decide)]
  dsimp only [Node.id0, Node.lhs, Node.rhs, Node.nid]
  rw [if_neg (by decide), if_neg (by decide), if_pos (by decide)]
  simp only [tcheckExprBinaryOp]
  dsimp only [Node.lhs, Node.id0, Node.rhs, Node.nid]
  rw [hlit]
  dsimp only [litNode]
  rw [hmt]
  dsimp only
  rw [if_neg (by decide)]
  rw [hdeep]

/-- Claim C2 (amended): `tcheckExpr` fails with `TooDeep`, leaving the
state untouched, whenever its depth parameter exceeds `MaxExprDepth`; the
already-performed annotations of sibling subexpressions of the same
enclosing expression are not rolled back (see the counterexample). -/
theorem claimC2 (fuel : Nat) (q : CState) (n : Node) (d : Nat)
    (h : d > MaxExprDepth) :
    tcheckExpr (fuel + 1) q n d = (q, some Err.tooDeep) :=
  expr_depth_guard fuel q n d h

/-- Claim C2 witness: the depth guard at depth 256. -/
theorem claimC2_witness :
    tcheckExpr 1 CState0 deadNode 256 = (CState0, some Err.tooDeep) :=
  claimC2 0 CState0 deadNode 256 (by decide)

/-- Claim C2 counterexample: the expression `c2expr` nests deeper than
`MaxExprDepth = 255`, and checking it does fail with `TooDeep` — but the
failed check does not leave the state unannotated: the literal left
operand (node 999) has gained a constant value and the type-checked mark
as a result of that failed check. -/
theorem claimC2_counterexample :
    255 < nodeDepth c2expr ∧
    (tcheckExpr 515 CState0 c2expr 0).2 = some Err.tooDeep ∧
    lookupCV CState0 999 = none ∧
    lookupCV (tcheckExpr 515 CState0 c2expr 0).1 999 = some 42 ∧
    lookupTC (tcheckExpr 515 CState0 c2expr 0).1 999 = true := by
  refine ⟨?_, ?_, rfl, ?_, ?_⟩
  · have h1 : nodeDepth c2expr =
        1 + max (max (max (depthOpt (some (litNode 999 "42"))) (depthOpt none))
          (depthOpt (some (deepNeg 255)))) (max (depthList []) (depthList [])) := rfl
    rw [h1]
    simp only [depthOpt, depthList, nodeDepth_deepNeg]
    omega
  · rw [c2expr_eval]
  · rw [c2expr_eval]
    rfl
  · rw [c2expr_eval]
    rfl

/-- Claim C8: constant-folding a shift whose constant right operand is
negative or above `0xFFFF` fails with `ShiftOutOfRange`; a count within
`[0, 0xFFFF]` folds to the left operand shifted by that count. -/
theorem claimC8 (q : CState) (n : Node) (l r : Int)
    (hk : n.id0.key = KeyXBinaryShiftL ∨ n.id0.key = KeyXBinaryShiftR) :
    ((r < 0 ∨ r > ffff) →
      setConstValueBinaryOp q n l r = (q, some Err.shiftOutOfRange)) ∧
    (0 ≤ r → r ≤ ffff →
      setConstValueBinaryOp q n l r =
        (setCV q n.nid
          (if n.id0.key = KeyXBinaryShiftL then bigLsh l r.toNat
           else bigRsh l r.toNat), none)) := by
  cases hk with
  | inl h =>
    constructor
    · intro hr
      simp only [setConstValueBinaryOp, h]
      rw [if_neg (by decide), if_neg (by decide), if_neg (by decide),
        if_neg (by decide), if_pos (by decide)]
      rw [if_pos (by simp only [Bool.or_eq_true, decide_eq_true_eq]; exact hr)]
    · intro h0 h1
      simp only [setConstValueBinaryOp, h]
      rw [if_neg (by decide), if_neg (by decide), if_neg (by decide),
        if_neg (by decide), if_pos (by decide)]
      rw [if_neg (by
        simp only [Bool.or_eq_true, decide_eq_true_eq]
        push_neg
        exact ⟨h0, h1⟩)]
      rw [if_pos trivial]
  | inr h =>
    constructor
    · intro hr
      simp only [setConstValueBinaryOp, h]
      rw [if_neg (by decide), if_neg (by decide), if_neg (by decide),
        if_neg (by decide), if_neg (by decide), if_pos (by decide)]
      rw [if_pos (by simp only [Bool.or_eq_true, decide_eq_true_eq]; exact hr)]
    · intro h0 h1
      simp only [setConstValueBinaryOp, h]
      rw [if_neg (by decide), if_neg (by decide), if_neg (by decide),
        if_neg (by decide), if_neg (by decide), if_pos (by decide)]
      rw [if_neg (by
        simp only [Bool.or_eq_true, decide_eq_true_eq]
        push_neg
        exact ⟨h0, h1⟩)]
      rw [if_neg (by decide)]

/-- Claim C8 witness: `1 << 70000` is rejected, `1 << 3` folds to `8`. -/
theorem claimC8_witness :
    setConstValueBinaryOp CState0 shiftLNode 1 70000 =
      (CState0, some Err.shiftOutOfRange) ∧
    setConstValueBinaryOp CState0 shiftLNode 1 3 =
      (setCV CState0 shiftLNode.nid
        (if shiftLNode.id0.key = KeyXBinaryShiftL then bigLsh 1 (3 : Int).toNat
         else bigRsh 1 (3 : Int).toNat), none) :=
  ⟨(claimC8 CState0 shiftLNode 1 70000 (Or.inl rfl)).1 (Or.inr (by decide)),
   (claimC8 CState0 shiftLNode 1 3 (Or.inl rfl)).2 (by decide) (by decide)⟩

/-- A `bool` type expression carrying (bogus) refinement bounds in its
`lhs`/`mhs` slots — the min bound is not even a parseable expression. -/
def boolWithBounds : Node :=
  .mk 12 .KTypeExpr 0 TokID.zero boolTok (some (litNode 13 "zz"))
    (some (litNode 14 "9")) none [] []

/-- Claim C10: a type expression with zero package-or-decorator whose
name is `bool` or `buf1` is accepted and marked `TypeChecked` whatever
its `lhs`/`mhs` refinement-bound slots hold; the bounds are neither
checked nor required to be constant. -/
theorem claimC10 (fuel : Nat) (q : CState) (n : Node) (d : Nat)
    (h0 : n.id0.key = 0) (h1 : n.id1.key = KeyBool ∨ n.id1.key = KeyBuf1)
    (hnum : n.id1.isNumTypeTok = false) (hd : d ≤ MaxTypeExprDepth) :
    tcheckTypeExpr (fuel + 1) q n d = (setTypeChecked q n.nid, none) := by
  simp only [tcheckTypeExpr]
  rw [if_neg (Nat.not_lt.mpr hd)]
  rw [if_pos (by simp [h0]), if_neg (by simp [hnum]),
    if_pos (by rcases h1 with h | h <;> simp [h])]

/-- Claim C10 witness: the `bool` type with an unparseable min bound and
a present max bound is accepted as is. -/
theorem claimC10_witness :
    tcheckTypeExpr 6 CState0 boolWithBounds 0 =
      (setTypeChecked CState0 boolWithBounds.nid, none) :=
  claimC10 5 CState0 boolWithBounds 0 rfl (Or.inl rfl) rfl (by decide)

/-! Concrete inputs for the assignment, literal and jump claims. -/

def xTok : TokID := ⟨100, 0, true, false, false, "x"⟩

/-- The identifier expression `x`. -/
def xIdentExpr : Node := .mk 20 .KExpr 0 TokID.zero xTok none none none [] []

/-- A state in which the local variable `x` has type `u8`. -/
def qX : CState := { localVars := [(xTok, TypeExprU8)] }

def eqTok : TokID := ⟨KeyEq, 0, false, false, false, "="⟩

/-- The assignment statement `x = 3`. -/
def assignN : Node :=
  .mk 22 .KAssign 0 eqTok TokID.zero (some xIdentExpr) none
    (some (litNode 21 "3")) [] []

/-- The state after checking the left side of `assignN`. -/
def qXa : CState := (tcheckExpr 5 qX xIdentExpr 0).1

/-- The state after checking both sides of `assignN`. -/
def qXb : CState := (tcheckExpr 5 qXa (litNode 21 "3") 0).1

/-- Claim C5: a plain assignment whose two sides type-check with implicit
types `L` and `R` is accepted exactly when `R` is the ideal pseudo-type
and `L` is numeric, or `L` equals `R` ignoring refinements; any other
combination fails with `NotAssignable`. -/
theorem claimC5 (fuel : Nat) (q q1 q2 : CState) (n lhs rhs lTyp rTyp : Node)
    (hk : n.id0.key = KeyEq)
    (hl : n.lhs = some lhs) (hr : n.rhs = some rhs)
    (h1 : tcheckExpr fuel q lhs 0 = (q1, none))
    (h2 : tcheckExpr fuel q1 rhs 0 = (q2, none))
    (hmtl : lookupMT q2 lhs.nid = some lTyp)
    (hmtr : lookupMT q2 rhs.nid = some rTyp) :
    ((tcheckAssign (fuel + 1) q n).2 = none ↔
      (teq rTyp TypeExprIdeal = true ∧ lTyp.IsNumType = true) ∨
        eqIgnoringRefinements lTyp rTyp = true) ∧
    ((tcheckAssign (fuel + 1) q n).2 ≠ none →
      tcheckAssign (fuel + 1) q n = (q2, some Err.notAssignable)) := by
  have hA : tcheckAssign (fuel + 1) q n =
      (if (teq rTyp TypeExprIdeal && lTyp.IsNumType) ||
          eqIgnoringRefinements lTyp rTyp then (q2, none)
       else (q2, some Err.notAssignable)) := by
    simp only [tcheckAssign]
    rw [hl, hr]
    dsimp only
    rw [h1]
    dsimp only
    rw [h2]
    dsimp only
    rw [hmtl, hmtr]
    dsimp only
    rw [if_pos (by simp [hk])]
  rw [hA]
  by_cases hc : ((teq rTyp TypeExprIdeal && lTyp.IsNumType) ||
      eqIgnoringRefinements lTyp rTyp) = true
  · rw [if_pos hc]
    simp only [Bool.or_eq_true, Bool.and_eq_true] at hc
    constructor
    · exact ⟨fun _ => hc, fun _ => rfl⟩
    · intro h
      exact absurd rfl h
  · rw [if_neg hc]
    simp only [Bool.or_eq_true, Bool.and_eq_true] at hc
    constructor
    · constructor
      · intro h
        exact absurd h (by simp)
      · intro h
        exact absurd h hc
    · intro _
      rfl

/-- Claim C5 witness: the assignment `x = 3` with `x : u8` is accepted
(the right side is ideal and the left side numeric). -/
theorem claimC5_witness : (tcheckAssign 6 qX assignN).2 = none :=
  (claimC5 5 qX qXa qXb assignN xIdentExpr (litNode 21 "3") TypeExprU8
    TypeExprIdeal rfl rfl rfl rfl rfl rfl rfl).1.mpr (Or.inl ⟨rfl, rfl⟩)

/-- Claim C9: a leaf expression whose `id1` is a numeric-literal token is
checked by parsing the lexeme with base prefixes per `big.Int.SetString`
base 0: on success the node gains that constant value and the ideal
implicit type (and the type-checked mark); an unparseable lexeme fails
with `InvalidNumericLiteral`. -/
theorem claimC9 (fuel : Nat) (q : CState) (n : Node) (d : Nat)
    (h0 : n.id0 = TokID.zero) (h1 : n.id1.isNumLitTok = true)
    (hd : d ≤ MaxExprDepth) :
    (∀ z, setStringBase0 n.id1.lexeme = some z →
      tcheckExpr (fuel + 1 + 1) q n d =
        (setTypeChecked (setMT (setCV q n.nid z) n.nid TypeExprIdeal) n.nid,
         none)) ∧
    (setStringBase0 n.id1.lexeme = none →
      tcheckExpr (fuel + 1 + 1) q n d = (q, some Err.invalidNumLit)) := by
  have hguard : ¬ d > MaxExprDepth := Nat.not_lt.mpr hd
  constructor
  · intro z hz
    simp only [tcheckExpr]
    rw [if_neg hguard]
    rw [h0]
    rw [if_pos (by decide)]
    simp only [tcheckExprOther]
    rw [if_pos (by rw [h0]; decide), if_pos (by simp [h1])]
    rw [hz]
  · intro hz
    simp only [tcheckExpr]
    rw [if_neg hguard]
    rw [h0]
    rw [if_pos (by decide)]
    simp only [tcheckExprOther]
    rw [if_pos (by rw [h0]; decide), if_pos (by simp [h1])]
    rw [hz]

/-- Claim C9 witness: the hexadecimal literal `0x2A` parses to 42 with
ideal type; the malformed literal `0x` fails. -/
theorem claimC9_witness :
    tcheckExpr 7 CState0 (litNode 30 "0x2A") 0 =
      (setTypeChecked (setMT (setCV CState0 30 42) 30 TypeExprIdeal) 30,
       none) ∧
    tcheckExpr 7 CState0 (litNode 31 "0x") 0 = (CState0, some Err.invalidNumLit) :=
  ⟨(claimC9 5 CState0 (litNode 30 "0x2A") 0 rfl rfl (by decide)).1 42 rfl,
   (claimC9 5 CState0 (litNode 31 "0x") 0 rfl rfl (by decide)).2 rfl⟩

/-- The keyword expression `true`. -/
def trueExpr (i : Nat) : Node := .mk i .KExpr 0 TokID.zero trueTok none none none [] []

def labelTok : TokID := ⟨200, 0, true, false, false, "outer"⟩

def breakTok : TokID := ⟨KeyBreak, 0, false, false, false, "break"⟩

/-- A labelled while statement (label `outer`, nid 40). -/
def whileOuter : Node :=
  .mk 40 .KWhile 0 TokID.zero labelTok (some (trueExpr 43)) none none [] []

/-- An unlabelled while statement (nid 41). -/
def whileInner : Node :=
  .mk 41 .KWhile 0 TokID.zero TokID.zero (some (trueExpr 44)) none none [] []

/-- The statement `break outer` (nid 42). -/
def jumpN : Node := .mk 42 .KJump 0 breakTok labelTok none none none [] []

/-- A state inside both whiles: `whileInner` is innermost. -/
def qJ : CState := { jumpTargets := [whileOuter, whileInner] }

/-- Claim C4: a break/continue with a label resolves to the innermost
while on the `jump_targets` stack whose label matches (scanning the
reversed stack front to back); one without a label resolves to the
innermost while outright; with no target the check fails `NoJumpTarget`;
on success the target gains its `has_break`/`has_continue` bit per the
keyword and the jump node records the back-reference and is marked. -/
theorem claimC4 (fuel : Nat) (q : CState) (n : Node) (hk : n.kind = .KJump) :
    tcheckStatement (fuel + 1) q n =
      match (if n.id1.key ≠ 0 then
               q.jumpTargets.reverse.find? (fun w => w.id1 == n.id1)
             else q.jumpTargets.reverse.head?) with
      | none => (q, some Err.noJumpTarget)
      | some w =>
        (setTypeChecked
          (setJumpTarg
            (if n.id0.key == KeyBreak then setHasBreak q w.nid
             else setHasContinue q w.nid) n.nid w.nid) n.nid, none) := by
  simp only [tcheckStatement]
  rw [hk]
  dsimp only
  rw [searchJumpTargets_eq, List.getLast?_eq_head?_reverse]

/-- Claim C4 witness: `break outer` inside both whiles targets the outer
while (nid 40), setting its break bit and the back-reference 42 → 40. -/
theorem claimC4_witness :
    tcheckStatement 3 qJ jumpN =
      (setTypeChecked (setJumpTarg (setHasBreak qJ 40) 42 40) 42, none) :=
  (claimC4 2 qJ jumpN rfl).trans rfl

/-! Concrete inputs for the if-chain, while and variable-pre-pass claims. -/

/-- The statement `if true {}` (nid 50) with no else-if successor. -/
def ifN : Node :=
  .mk 50 .KIf 0 TokID.zero TokID.zero (some (trueExpr 51)) none none [] []

/-- The statement `while true {}` (nid 60), no asserts, empty body. -/
def whileW : Node :=
  .mk 60 .KWhile 0 TokID.zero TokID.zero (some (trueExpr 61)) none none [] []

/-- The state after checking `whileW`'s condition. -/
def q6a : CState := (tcheckExpr 5 CState0 (trueExpr 61) 0).1

/-- The state after checking `whileW`'s (empty) assert list. -/
def q6b : CState := (tcheckAssertNodeList 5 q6a ([] : List Node)).1

/-- The type expression `bool` (nid 71). -/
def boolTypeN : Node :=
  .mk 71 .KTypeExpr 0 TokID.zero boolTok none none none [] []

/-- The declaration `var x bool` (nid 70). -/
def varXNode : Node :=
  .mk 70 .KVar 0 TokID.zero xTok (some boolTypeN) none none [] []

/-- The state after the variable pre-pass over `[varXNode]`. -/
def q7 : CState := (tcheckVarsList 5 CState0 [varXNode]).1

/-- Claim C3: the `If` statement case runs the whole else-if chain through
the checking pass first; if that pass fails, the error is returned and no
node of the chain changes its `TypeChecked` status (clauses before the
failing one included); only if the whole chain checked without error does
the second pass mark every chain node. -/
theorem claimC3 (fuel : Nat) (q : CState) (n : Node)
    (hk : n.kind = .KIf) (hnd : (nodeNids n).Nodup) :
    (∀ e, (tcheckIfChain fuel q n).2 = some e →
      (tcheckStatement (fuel + 1) q n).2 = some e ∧
      ∀ m ∈ chainNids n,
        (m ∈ ((tcheckStatement (fuel + 1) q n).1).typeChecked ↔
          m ∈ q.typeChecked)) ∧
    ((tcheckIfChain fuel q n).2 = none →
      (tcheckStatement (fuel + 1) q n).2 = none ∧
      ∀ m ∈ chainNids n,
        m ∈ ((tcheckStatement (fuel + 1) q n).1).typeChecked) := by
  have hFrame := ifChainFrame fuel q n hnd
  have hMark := markAllChain fuel q n
  rcases hx : tcheckIfChain fuel q n with ⟨q1, e1⟩
  rw [hx] at hFrame
  rw [hx] at hMark
  have hS : tcheckStatement (fuel + 1) q n =
      match (q1, e1) with
      | (q2, some e) => (q2, some e)
      | (q2, none) => (markIfChain fuel q2 n, none) := by
    simp only [tcheckStatement]
    rw [hk]
    dsimp only
    rw [hx]
  cases e1 with
  | some e2 =>
    rw [hS]
    dsimp only
    constructor
    · intro e he
      cases he
      exact ⟨rfl, fun m hm => hFrame m hm⟩
    · intro he
      exact absurd he (by simp)
  | none =>
    rw [hS]
    dsimp only
    constructor
    · intro e he
      exact absurd he (by simp)
    · intro _
      exact ⟨rfl, fun m hm => hMark rfl q1 m hm⟩

/-- Claim C3 witness: the one-clause chain `if true {}` checks, and its
node is marked by the second pass. -/
theorem claimC3_witness :
    (tcheckStatement 6 CState0 ifN).2 = none ∧
    50 ∈ ((tcheckStatement 6 CState0 ifN).1).typeChecked := by
  have h := (claimC3 5 CState0 ifN rfl (by decide)).2 rfl
  exact ⟨h.1, h.2 50 (by decide)⟩

/-- Claim C6: every statement check (the `While` case and its push/pop
included, on success and on error alike) restores the `jump_targets`
stack to its entry value; a function body check that starts with an empty
stack ends with an empty stack; and once a `While`'s condition and
asserts have checked, its body statements are checked on a stack with the
`While` pushed on top, the pop (`dropLast`) being applied on both the
success and the error path. -/
theorem claimC6 (fuel : Nat) :
    (∀ q n, ((tcheckStatement fuel q n).1).jumpTargets = q.jumpTargets) ∧
    (∀ q body, q.jumpTargets = [] →
      ((checkFuncBody fuel q body).1).jumpTargets = []) ∧
    (∀ q n cond q1 mt q2,
      n.kind = .KWhile → n.lhs = some cond →
      tcheckExpr fuel q cond 0 = (q1, none) →
      lookupMT q1 cond.nid = some mt → teq mt TypeExprBool = true →
      tcheckAssertNodeList fuel q1 n.list0 = (q2, none) →
      q2.jumpTargets = q.jumpTargets ∧
      tcheckStatement (fuel + 1) q n =
        (match tcheckStatementList fuel
            { q2 with jumpTargets := q2.jumpTargets ++ [n] } n.list1 with
         | (q4, e) =>
           let q5 := { q4 with jumpTargets := q4.jumpTargets.dropLast }
           match e with
           | some e1 => (q5, some e1)
           | none => (setTypeChecked q5 n.nid, none))) := by
  refine ⟨?_, ?_, ?_⟩
  · intro q n
    exact (presStmtT fuel q n).1.1
  · intro q body h0
    simp only [checkFuncBody]
    have hjv := ((varsMaster fuel).2 q body).1
    rcases hv : tcheckVarsList fuel q body with ⟨qv, ev⟩
    rw [hv] at hjv
    cases ev with
    | some e =>
      dsimp only
      exact hjv.trans h0
    | none =>
      dsimp only
      exact ((presStmtL fuel qv body).1.1).trans (hjv.trans h0)
  · intro q n cond q1 mt q2 hk hl he hmt hb ha
    have hq1 := (presExpr fuel q cond 0).1.1
    rw [he] at hq1
    have hq2 := (presANodeL fuel q1 n.list0).1.1
    rw [ha] at hq2
    refine ⟨hq2.trans hq1, ?_⟩
    simp only [tcheckStatement]
    rw [hk]
    dsimp only
    rw [hl]
    dsimp only
    rw [he]
    dsimp only
    rw [hmt]
    dsimp only
    rw [if_neg (by simp [hb])]
    rw [ha]

/-- Claim C6 witness: `while true {}` and a one-statement function body,
both starting from the empty state. -/
theorem claimC6_witness :
    ((tcheckStatement 6 CState0 whileW).1).jumpTargets = [] ∧
    ((checkFuncBody 6 CState0 [whileW]).1).jumpTargets = [] ∧
    q6b.jumpTargets = [] := by
  refine ⟨(claimC6 6).1 CState0 whileW, (claimC6 6).2.1 CState0 [whileW] rfl, ?_⟩
  exact ((claimC6 5).2.2 CState0 whileW (trueExpr 61) q6a TypeExprBool q6b
    rfl rfl rfl rfl rfl rfl).1

/-- Claim C7: the variable pre-pass rejects a `Var` whose name is already
registered with `DuplicateVar` on the spot; a body whose collected
variable sequence is fresh (pairwise-distinct, unregistered names) never
fails with `DuplicateVar`; a successful pre-pass extends `local_vars` by
exactly the collected `(name, type)` sequence — collected through the two
child lists of every node, never through expression slots (see `varSeq`);
and the function-body driver runs the whole pre-pass before any statement
(hence any expression) is checked, stopping if the pre-pass fails. -/
theorem claimC7 (fuel : Nat) :
    (∀ q n, n.kind = .KVar → (lookupLV q n.id1).isSome = true →
      tcheckVars (fuel + 1) q n = (q, some Err.duplicateVar)) ∧
    (∀ q ns, freshVars q (varSeqList ns) →
      (tcheckVarsList fuel q ns).2 ≠ some Err.duplicateVar) ∧
    (∀ q ns q1, tcheckVarsList fuel q ns = (q1, none) →
      q1.localVars = q.localVars ++ varSeqList ns) ∧
    (∀ q body q1, tcheckVarsList fuel q body = (q1, none) →
      checkFuncBody fuel q body = tcheckStatementList fuel q1 body) ∧
    (∀ q body q1 e, tcheckVarsList fuel q body = (q1, some e) →
      checkFuncBody fuel q body = (q1, some e)) := by
  refine ⟨?_, ?_, ?_, ?_, ?_⟩
  · intro q n hk hdup
    simp only [tcheckVars]
    rw [if_pos hk, if_pos hdup]
  · intro q ns hf
    exact ((varsMaster fuel).2 q ns).2.2 hf
  · intro q ns q1 h
    have h2 := ((varsMaster fuel).2 q ns).2.1
    rw [h] at h2
    exact h2 rfl
  · intro q body q1 h
    simp only [checkFuncBody]
    rw [h]
  · intro q body q1 e h
    simp only [checkFuncBody]
    rw [h]

/-- Claim C7 witness: `var x bool` is rejected when `x` is taken, and the
pre-pass over `[var x bool]` registers `x` before the statement pass. -/
theorem claimC7_witness :
    tcheckVars 3 qX varXNode = (qX, some Err.duplicateVar) ∧
    q7.localVars = CState0.localVars ++ varSeqList [varXNode] ∧
    checkFuncBody 5 CState0 [varXNode] = tcheckStatementList 5 q7 [varXNode] := by
  refine ⟨(claimC7 2).1 qX varXNode rfl rfl, ?_, ?_⟩
  · exact (claimC7 5).2.2.1 CState0 [varXNode] q7 rfl
  · exact (claimC7 5).2.2.2.1 CState0 [varXNode] q7 rfl
